import Mathlib

/-!
# Verification development for the Go package worker (worker.go)

The package is a small job pool: executor goroutines take jobs off an inbound
channel, run them, relay the result over an outbound channel to a short-lived
chase goroutine that runs the continuation loop chainJob, and a Sentry
collects the final results of a batch of guarded jobs.

The development has two layers.

* A sequential layer: the methods Action of the job types guard, unguard and
  stop, and the loop chainJob, as functions with a fuel bound on a heap that
  holds the caller state and the sentries.
* A concurrent layer: a labelled small-step function on the whole system
  (worker fields, channels, wait groups, sentries, executor goroutines, chase
  goroutines and one caller), where every operation on shared memory that the
  source performs is one step.

What the embedding takes for granted.

* The jobs of the caller are a parameter: a type U of job values and a
  function act that gives, for a job and a caller state, the Result it returns
  and the new caller state.  A call of Action of a caller job is one step and
  touches the caller state only.  The unexported types guard, unguard and stop
  cannot be built by the caller.
* There is one caller, which makes the calls of the exported operations one
  after the other; a call that blocks keeps the caller until it returns.
* Channels and wait groups follow the Go specification and the package sync:
  a send on a closed channel, a close of a nil or closed channel and a wait
  group counter that would go negative are panics, and a panic has no
  successor state.
* The critical section of the mutex of a sentry is one step.  The go statement
  of Worker.routine and the test of sw that follows it are one step.
-/

namespace worker

/-! ## Outcomes -/

/-- Outcome of running a piece of Go code: it returned a value, it panicked
(the run-time aborts the program), or it has not returned: out of fuel in the
sequential layer, blocked or not enabled in the concurrent layer. -/
inductive Outcome (α : Type) where
  | ok (a : α)
  | panic
  | pending
deriving DecidableEq, Repr

/-! ## Job and Result values -/

/-- What the Action of a caller-defined job can hand back, as a dynamic value
of the interface Result: the nil interface, a value whose type has no method
Action, or a value of a caller-defined type that has the method Action.  The
types guard, unguard and stop are unexported and no operation of the package
hands one of their values to the caller, so a caller job cannot return them. -/
inductive UResult (U V : Type) where
  | nil
  | val (v : V)
  | cont (u : U)
deriving DecidableEq, Repr

/-- The non-nil dynamic values of the interface Job: a caller-defined job, or a
pointer to one of the three structs of the package that have the method
Action.  The field job of guard is the interface value handed to
Sentry.Guard, which may be the nil interface (none). -/
inductive Job (U V : Type) where
  | user (u : U)
  | guard (sentry : Nat) (job : Option U)
  | unguard (sentry : Nat) (result : UResult U V)
  | stop (waiter : Nat)
deriving DecidableEq, Repr

/-- Dynamic values of the empty interface Result.  Since Continue is declared
as the interface type Job, the type assertion result.(Continue) of chainJob
succeeds exactly on the values built with job. -/
inductive Result (U V : Type) where
  | nil
  | val (v : V)
  | job (j : Job U V)
deriving DecidableEq, Repr

/-- Conversion of the return value of a caller job to the interface Result. -/
def UResult.toResult {U V : Type} : UResult U V → Result U V
  | .nil => .nil
  | .val v => .val v
  | .cont u => .job (.user u)

/-- A value on which the loop of chainJob stops: nil, or a value that does not
implement Job. -/
def UResult.isFinal {U V : Type} : UResult U V → Bool
  | .cont _ => false
  | _ => true

/-- The test result.(Continue) of chainJob. -/
def Result.isContinue {U V : Type} : Result U V → Bool
  | .job _ => true
  | _ => false

/-! ## Wait groups, sentries and the heap -/

/-- The method Add of sync.WaitGroup on the counter: it panics when the counter
would become negative. -/
def WaitGroup.Add (counter delta : Int) : Outcome Int :=
  if counter + delta < 0 then .panic else .ok (counter + delta)

/-- The method Done of sync.WaitGroup, which is Add(-1). -/
def WaitGroup.Done (counter : Int) : Outcome Int :=
  WaitGroup.Add counter (-1)

/-- The struct Sentry.  The field worker is left out (there is one worker),
the mutex is rendered by making the append to results one atomic step, and
waiter is the counter of the wait group the sentry owns. -/
structure Sentry (U V : Type) where
  results : List (Result U V)
  waiter : Int
deriving DecidableEq, Repr

/-- The memory that jobs act on: the caller state the caller jobs close over,
and the sentries, addressed by their index. -/
structure Heap (σ U V : Type) where
  user : σ
  sentries : List (Sentry U V)
deriving DecidableEq, Repr

/-- The statements of unguard.Action after the call of chainJob, run in one
go: the append under the mutex, Done on the wait group, and the return. -/
def Sentry.record {σ U V : Type} (s : Nat) (result : Result U V) (h : Heap σ U V) :
    Outcome (Result U V × Heap σ U V) :=
  match h.sentries[s]? with
  | none => .panic
  | some sen =>
    match WaitGroup.Done sen.waiter with
    | .ok c =>
      let sen1 : Sentry U V := { results := sen.results ++ [result], waiter := c }
      .ok (result, { h with sentries := h.sentries.set s sen1 })
    | _ => .panic

section Sequential

variable {σ U V : Type}

/- The sequential layer is parameterised by the method Action of the caller
jobs: a caller job reads and updates the caller state and returns a Result. -/
variable (act : U → σ → UResult U V × σ)

mutual
/-- The method Action of every job type: a caller job, guard.Action,
unguard.Action and stop.Action.  The fuel bounds the nesting of calls. -/
def Job.Action : Nat → Job U V → Heap σ U V → Outcome (Result U V × Heap σ U V)
  | _, .user u, h =>
    .ok ((act u h.user).1.toResult, { h with user := (act u h.user).2 })
  | _, .guard _ none, _ => .panic
  | _, .guard s (some u), h =>
    .ok (.job (.unguard s (act u h.user).1), { h with user := (act u h.user).2 })
  | 0, .unguard _ _, _ => .pending
  | fuel + 1, .unguard s r, h =>
    match chainJob fuel r.toResult h with
    | .ok (result, h1) => Sentry.record s result h1
    | .panic => .panic
    | .pending => .pending
  | _, .stop _, h => .ok (.nil, h)
/-- The function chainJob: while the result is a non-nil Continue, run its
Action and go on with what it returns. -/
def chainJob : Nat → Result U V → Heap σ U V → Outcome (Result U V × Heap σ U V)
  | _, .nil, h => .ok (.nil, h)
  | _, .val v, h => .ok (.val v, h)
  | 0, .job _, _ => .pending
  | fuel + 1, .job j, h =>
    match Job.Action fuel j h with
    | .ok (result, h1) => chainJob fuel result h1
    | .panic => .panic
    | .pending => .pending
end

end Sequential

/-! ## Concurrent layer: data -/

/-- The four errors the package makes with errors.New, in the order of the
source: worker is busy on jobs, worker is busy on job results, worker free,
and the one of Wait about missing job results. -/
inductive Err where
  | busyOnJobs
  | busyOnJobResults
  | workerFree
  | noJobResults
deriving DecidableEq, Repr

/-- A Go channel: the queue of buffered items and whether it is closed. -/
structure Chan (α : Type) where
  buf : List α
  closed : Bool
deriving DecidableEq, Repr

/-- The capacity SpawnN gives to make for both channels. -/
def Chan.cap : Nat := 1

/-- The channel make(chan T, 1) returns. -/
def Chan.make {α : Type} : Chan α := { buf := [], closed := false }

/-- A send on a channel: a panic on a closed channel, done at once when the
buffer has room, blocked otherwise. -/
def Chan.send {α : Type} (c : Chan α) (x : α) : Outcome (Chan α) :=
  if c.closed then .panic
  else if c.buf.length < Chan.cap then .ok { c with buf := c.buf ++ [x] }
  else .pending

/-- A receive on a channel: the oldest buffered item when there is one; on an
empty channel the zero value with ok = false (none) when closed, blocked when
open. -/
def Chan.recv {α : Type} (c : Chan α) : Outcome (Option α × Chan α) :=
  match c.buf with
  | x :: rest => .ok (some x, { c with buf := rest })
  | [] => if c.closed then .ok (none, c) else .pending

/-- The builtin close: a panic on a closed channel. -/
def Chan.close {α : Type} (c : Chan α) : Outcome (Chan α) :=
  if c.closed then .panic else .ok { c with closed := true }

/-- A send through a channel variable: on the nil channel it blocks for
ever. -/
def sendOn {α : Type} (chans : List (Chan α)) (c : Option Nat) (x : α) :
    Outcome (List (Chan α)) :=
  match c with
  | none => .pending
  | some id =>
    match chans[id]? with
    | none => .pending
    | some ch =>
      match ch.send x with
      | .ok ch1 => .ok (chans.set id ch1)
      | .panic => .panic
      | .pending => .pending

/-- A receive through a channel variable: on the nil channel it blocks for
ever. -/
def recvOn {α : Type} (chans : List (Chan α)) (c : Option Nat) :
    Outcome (Option α × List (Chan α)) :=
  match c with
  | none => .pending
  | some id =>
    match chans[id]? with
    | none => .pending
    | some ch =>
      match ch.recv with
      | .ok (x, ch1) => .ok (x, chans.set id ch1)
      | .panic => .panic
      | .pending => .pending

/-- The builtin close through a channel variable: a panic on the nil
channel. -/
def closeOn {α : Type} (chans : List (Chan α)) (c : Option Nat) : Outcome (List (Chan α)) :=
  match c with
  | none => .panic
  | some id =>
    match chans[id]? with
    | none => .panic
    | some ch =>
      match ch.close with
      | .ok ch1 => .ok (chans.set id ch1)
      | _ => .panic

/-- The struct Worker: the channel fields hold the index of a channel, or nil. -/
structure Worker where
  routines : Int
  i : Option Nat
  o : Option Nat
deriving DecidableEq, Repr

/-- Progress of one call j.Action() by a goroutine, in steps: about to call,
inside unguard.Action at the head of the loop of chainJob(m.result) with the
current result r, inside unguard.Action after the append of the final r and
before waiter.Done(), and returned. -/
inductive ActPC (U V : Type) where
  | call (j : Job U V)
  | inner (s : Nat) (r : UResult U V)
  | done (s : Nat) (r : UResult U V)
  | ret (r : Result U V)
deriving DecidableEq, Repr

/-- Program counter of a goroutine running Worker.routine: not yet at the
range clause; waiting to receive from the channel ci the range clause read from
w.i; inside msg.Action() (sw is the local variable sw); at the send of r on the
channel co read from w.o; at the go statement; returned. -/
inductive ExecPC (U V : Type) where
  | start
  | recv (ci : Option Nat)
  | run (ci : Option Nat) (a : ActPC U V) (sw : Option Nat)
  | send (ci co : Option Nat) (r : Result U V) (sw : Option Nat)
  | spawn (ci : Option Nat) (sw : Option Nat)
  | exited
deriving DecidableEq, Repr

/-- Program counter of a goroutine running Worker.advance(wg): not yet at the
receive; waiting to receive from the channel co read from w.o; at the head of
the loop of chainJob; inside j.Action() called by that loop; after chainJob, at
the test of wg; returned. -/
inductive ChasePC (U V : Type) where
  | start (wg : Option Nat)
  | recv (co : Option Nat) (wg : Option Nat)
  | chain (r : Result U V) (wg : Option Nat)
  | act (a : ActPC U V) (wg : Option Nat)
  | finish (wg : Option Nat)
  | exited
deriving DecidableEq, Repr

/-- Where the caller is: between two calls, or inside a call that can block:
in Worker.Do at the send of m on channel c; in Worker.Wait at the head of the
loop with the stop token whose wait group is c and loop counter i; at
c.waiter.Wait(); at close(w.i); at close(w.o); at the assignment of nil to both
fields; in Sentry.Wait at s.waiter.Wait(). -/
inductive CallerPC (U V : Type) where
  | idle
  | doSend (c : Nat) (m : Option (Job U V))
  | waitLoop (c : Nat) (i : Nat)
  | waitBarrier (c : Nat)
  | waitCloseI
  | waitCloseO
  | waitReset
  | sentryWait (s : Nat)
deriving DecidableEq, Repr

/-- The caller is between two calls. -/
def CallerPC.isIdle {U V : Type} : CallerPC U V → Bool
  | .idle => true
  | _ => false

/-- The whole system: the heap of the sequential layer, the one Worker, the
channels and the wait groups of stop tokens ever allocated, the goroutines ever
started, and the caller. -/
structure Sys (σ U V : Type) where
  heap : Heap σ U V
  w : Worker
  ichans : List (Chan (Option (Job U V)))
  ochans : List (Chan (Result U V))
  wgs : List Int
  execs : List (ExecPC U V)
  chasers : List (ChasePC U V)
  caller : CallerPC U V
deriving DecidableEq, Repr

/-- What the caller does next.  The first seven are calls of the exported
operations, possible when the caller is between calls; submit is Worker.Do on
a job of the caller or on nil.  The label caller lets the caller take the next
step of the call it is in, exec k and chase k let the k-th executor and the
k-th chase goroutine take their next step. -/
inductive Label (U : Type) where
  | spawnN (num : Int)
  | wait
  | kill
  | submit (m : Option U)
  | sentry
  | guard (s : Nat) (m : Option U)
  | sentryWait (s : Nat)
  | caller
  | exec (k : Nat)
  | chase (k : Nat)
deriving DecidableEq, Repr

/-- What a step lets the caller observe: nothing, the error value SpawnN
returned, the error value Wait or Kill returned, the sentry Worker.Sentry
returned, that Guard was called on sentry s, and the results Sentry.Wait
returned. -/
inductive Obs (U V : Type) where
  | tau
  | spawnN (num : Int) (err : Option Err)
  | waitRet (err : Option Err)
  | sentryNew (s : Option Nat)
  | guardCall (s : Nat)
  | sentryWaitRet (s : Nat) (results : List (Result U V))
deriving DecidableEq, Repr

/-! ## Concurrent layer: the operations -/

section Concurrent

variable {σ U V : Type}

/-- The function New, with the caller state the jobs will close over. -/
def New (st0 : σ) : Sys σ U V :=
  { heap := { user := st0, sentries := [] }
    w := { routines := 0, i := none, o := none }
    ichans := [], ochans := [], wgs := [], execs := [], chasers := []
    caller := .idle }

/-- The method Worker.SpawnN: the returned error and the state it leaves. -/
def Worker.SpawnN (num : Int) (st : Sys σ U V) : Option Err × Sys σ U V :=
  if st.w.i.isSome then (some .busyOnJobs, st)
  else if st.w.o.isSome then (some .busyOnJobResults, st)
  else
    let w1 : Worker := { routines := num, i := some st.ichans.length, o := some st.ochans.length }
    (none, { st with
      w := w1
      ichans := st.ichans ++ [Chan.make]
      ochans := st.ochans ++ [Chan.make]
      execs := st.execs ++ List.replicate num.toNat .start })

/-- The function SpawnN of the package: New followed by the method SpawnN,
whose error is dropped. -/
def SpawnN (num : Int) (st0 : σ) : Sys σ U V :=
  (Worker.SpawnN num (New st0)).2

/-- The method Worker.Wait up to its loop: either it returns an error at once
(some e, the state is the one it was called in), or it has made the stop token
with its wait group, added w.routines to it, and stands at the head of the
loop (none). -/
def Worker.Wait (st : Sys σ U V) : Outcome (Option Err × Sys σ U V) :=
  if st.w.i.isNone then .ok (some .workerFree, st)
  else if st.w.o.isNone then .ok (some .noJobResults, st)
  else
    match WaitGroup.Add 0 st.w.routines with
    | .ok c => .ok (none, { st with wgs := st.wgs ++ [c], caller := .waitLoop st.wgs.length 0 })
    | _ => .panic

/-- The method Worker.Kill, which is Wait. -/
def Worker.Kill (st : Sys σ U V) : Outcome (Option Err × Sys σ U V) :=
  Worker.Wait st

/-- The method Worker.Do up to the send: on a nil w.i it returns at once and
the state is untouched, else the caller stands at the send. -/
def Worker.Do (m : Option (Job U V)) (st : Sys σ U V) : Sys σ U V :=
  match st.w.i with
  | none => st
  | some c => { st with caller := .doSend c m }

/-- The method Worker.Sentry: nil on an idle worker, else a new sentry. -/
def Worker.Sentry (st : Sys σ U V) : Option Nat × Sys σ U V :=
  if st.w.i.isNone || st.w.o.isNone then (none, st)
  else
    let sen : worker.Sentry U V := { results := [], waiter := 0 }
    (some st.heap.sentries.length,
      { st with heap := { st.heap with sentries := st.heap.sentries ++ [sen] } })

/-- The method Sentry.Guard up to the send inside Do: Add(1) on the wait group
of the sentry, then Do on the new guard. -/
def Sentry.Guard (s : Nat) (m : Option U) (st : Sys σ U V) : Outcome (Sys σ U V) :=
  match st.heap.sentries[s]? with
  | none => .panic
  | some sen =>
    match WaitGroup.Add sen.waiter 1 with
    | .ok c =>
      let sen1 : Sentry U V := { sen with waiter := c }
      .ok (Worker.Do (some (.guard s m))
        { st with heap := { st.heap with sentries := st.heap.sentries.set s sen1 } })
    | _ => .panic

/-- The method Sentry.Wait once s.waiter.Wait() lets it through: the results
it returns.  It is blocked while the counter is not zero. -/
def Sentry.Wait (s : Nat) (st : Sys σ U V) : Outcome (List (Result U V)) :=
  match st.heap.sentries[s]? with
  | none => .panic
  | some sen => if sen.waiter = 0 then .ok sen.results else .pending

variable (act : U → σ → UResult U V × σ)

/-- One step of a call j.Action().  The append of unguard.Action under the
mutex is one step, waiter.Done() is the next. -/
def ActPC.step : ActPC U V → Heap σ U V → Outcome (ActPC U V × Heap σ U V)
  | .call (.user u), h =>
    .ok (.ret (act u h.user).1.toResult, { h with user := (act u h.user).2 })
  | .call (.guard _ none), _ => .panic
  | .call (.guard s (some u)), h =>
    .ok (.ret (.job (.unguard s (act u h.user).1)), { h with user := (act u h.user).2 })
  | .call (.unguard s r), h => .ok (.inner s r, h)
  | .call (.stop _), h => .ok (.ret .nil, h)
  | .inner s (.cont u), h =>
    .ok (.inner s (act u h.user).1, { h with user := (act u h.user).2 })
  | .inner s r, h =>
    match h.sentries[s]? with
    | none => .panic
    | some sen =>
      let sen1 : Sentry U V := { sen with results := sen.results ++ [r.toResult] }
      .ok (.done s r, { h with sentries := h.sentries.set s sen1 })
  | .done s r, h =>
    match h.sentries[s]? with
    | none => .panic
    | some sen =>
      match WaitGroup.Done sen.waiter with
      | .ok c =>
        let sen1 : Sentry U V := { sen with waiter := c }
        .ok (.ret r.toResult, { h with sentries := h.sentries.set s sen1 })
      | _ => .panic
  | .ret _, _ => .pending

/-- A call j.Action() taken step by step to its return by a goroutine on its
own, in at most n steps. -/
def ActPC.run : Nat → ActPC U V → Heap σ U V → Outcome (Result U V × Heap σ U V)
  | _, .ret r, h => .ok (r, h)
  | 0, _, _ => .pending
  | n + 1, a, h =>
    match ActPC.step act a h with
    | .ok (a1, h1) => ActPC.run n a1 h1
    | .panic => .panic
    | .pending => .pending

/-- The local variable sw of Worker.routine: the wait group of msg when msg
is a stop token. -/
def stopWaiter : Job U V → Option Nat
  | .stop wg => some wg
  | _ => none

/-- The method Worker.routine, one step at a time: the next step of the k-th
goroutine running it.  The read of w.o for the send is taken after the call of
msg.Action() has returned. -/
def Worker.routine (k : Nat) (st : Sys σ U V) : Outcome (Sys σ U V) :=
  match st.execs[k]? with
  | none => .pending
  | some .start => .ok { st with execs := st.execs.set k (.recv st.w.i) }
  | some (.recv ci) =>
    match recvOn st.ichans ci with
    | .ok (some (some j), chans) =>
      .ok { st with ichans := chans, execs := st.execs.set k (.run ci (.call j) (stopWaiter j)) }
    | .ok (some none, chans) => .ok { st with ichans := chans }
    | .ok (none, chans) => .ok { st with ichans := chans, execs := st.execs.set k .exited }
    | .panic => .panic
    | .pending => .pending
  | some (.run ci (.ret r) sw) => .ok { st with execs := st.execs.set k (.send ci st.w.o r sw) }
  | some (.run ci a sw) =>
    match ActPC.step act a st.heap with
    | .ok (a1, h1) => .ok { st with heap := h1, execs := st.execs.set k (.run ci a1 sw) }
    | .panic => .panic
    | .pending => .pending
  | some (.send ci co r sw) =>
    match sendOn st.ochans co r with
    | .ok chans => .ok { st with ochans := chans, execs := st.execs.set k (.spawn ci sw) }
    | .panic => .panic
    | .pending => .pending
  | some (.spawn ci sw) =>
    .ok { st with
      chasers := st.chasers ++ [.start sw]
      execs := st.execs.set k (if sw.isSome then .exited else .recv ci) }
  | some .exited => .pending

/-- The method Worker.advance, one step at a time: the next step of the k-th
goroutine running it. -/
def Worker.advance (k : Nat) (st : Sys σ U V) : Outcome (Sys σ U V) :=
  match st.chasers[k]? with
  | none => .pending
  | some (.start wg) => .ok { st with chasers := st.chasers.set k (.recv st.w.o wg) }
  | some (.recv co wg) =>
    match recvOn st.ochans co with
    | .ok (some r, chans) =>
      .ok { st with ochans := chans, chasers := st.chasers.set k (.chain r wg) }
    | .ok (none, chans) =>
      .ok { st with ochans := chans, chasers := st.chasers.set k (.chain .nil wg) }
    | .panic => .panic
    | .pending => .pending
  | some (.chain (.job j) wg) => .ok { st with chasers := st.chasers.set k (.act (.call j) wg) }
  | some (.chain _ wg) => .ok { st with chasers := st.chasers.set k (.finish wg) }
  | some (.act (.ret r) wg) => .ok { st with chasers := st.chasers.set k (.chain r wg) }
  | some (.act a wg) =>
    match ActPC.step act a st.heap with
    | .ok (a1, h1) => .ok { st with heap := h1, chasers := st.chasers.set k (.act a1 wg) }
    | .panic => .panic
    | .pending => .pending
  | some (.finish none) => .ok { st with chasers := st.chasers.set k .exited }
  | some (.finish (some g)) =>
    match st.wgs[g]? with
    | none => .panic
    | some c =>
      match WaitGroup.Done c with
      | .ok c1 => .ok { st with wgs := st.wgs.set g c1, chasers := st.chasers.set k .exited }
      | _ => .panic
  | some .exited => .pending

/-- The next step of the call the caller is in. -/
def callerStep (st : Sys σ U V) : Outcome (Sys σ U V × Obs U V) :=
  match st.caller with
  | .idle => .pending
  | .doSend c m =>
    match sendOn st.ichans (some c) m with
    | .ok chans => .ok ({ st with ichans := chans, caller := .idle }, .tau)
    | .panic => .panic
    | .pending => .pending
  | .waitLoop c i =>
    if (i : Int) < st.w.routines then
      match sendOn st.ichans st.w.i (some (.stop c)) with
      | .ok chans => .ok ({ st with ichans := chans, caller := .waitLoop c (i + 1) }, .tau)
      | .panic => .panic
      | .pending => .pending
    else .ok ({ st with caller := .waitBarrier c }, .tau)
  | .waitBarrier c =>
    match st.wgs[c]? with
    | none => .panic
    | some n => if n = 0 then .ok ({ st with caller := .waitCloseI }, .tau) else .pending
  | .waitCloseI =>
    match closeOn st.ichans st.w.i with
    | .ok chans => .ok ({ st with ichans := chans, caller := .waitCloseO }, .tau)
    | _ => .panic
  | .waitCloseO =>
    match closeOn st.ochans st.w.o with
    | .ok chans => .ok ({ st with ochans := chans, caller := .waitReset }, .tau)
    | _ => .panic
  | .waitReset =>
    .ok ({ st with w := { st.w with i := none, o := none }, caller := .idle }, .waitRet none)
  | .sentryWait s =>
    match Sentry.Wait s st with
    | .ok results => .ok ({ st with caller := .idle }, .sentryWaitRet s results)
    | .panic => .panic
    | .pending => .pending

/-- The labelled step of the system.  A call is possible only between calls. -/
def step (st : Sys σ U V) : Label U → Outcome (Sys σ U V × Obs U V)
  | .spawnN num =>
    if st.caller.isIdle then .ok ((Worker.SpawnN num st).2, .spawnN num (Worker.SpawnN num st).1)
    else .pending
  | .wait =>
    if st.caller.isIdle then
      match Worker.Wait st with
      | .ok (some e, st1) => .ok (st1, .waitRet (some e))
      | .ok (none, st1) => .ok (st1, .tau)
      | .panic => .panic
      | .pending => .pending
    else .pending
  | .kill =>
    if st.caller.isIdle then
      match Worker.Kill st with
      | .ok (some e, st1) => .ok (st1, .waitRet (some e))
      | .ok (none, st1) => .ok (st1, .tau)
      | .panic => .panic
      | .pending => .pending
    else .pending
  | .submit m =>
    if st.caller.isIdle then .ok (Worker.Do (m.map .user) st, .tau) else .pending
  | .sentry =>
    if st.caller.isIdle then .ok ((Worker.Sentry st).2, .sentryNew (Worker.Sentry st).1)
    else .pending
  | .guard s m =>
    if st.caller.isIdle then
      match Sentry.Guard s m st with
      | .ok st1 => .ok (st1, .guardCall s)
      | .panic => .panic
      | .pending => .pending
    else .pending
  | .sentryWait s =>
    if st.caller.isIdle then .ok ({ st with caller := .sentryWait s }, .tau) else .pending
  | .caller => callerStep st
  | .exec k =>
    match Worker.routine act k st with
    | .ok st1 => .ok (st1, .tau)
    | .panic => .panic
    | .pending => .pending
  | .chase k =>
    match Worker.advance act k st with
    | .ok st1 => .ok (st1, .tau)
    | .panic => .panic
    | .pending => .pending

/-- The states reachable from a freshly created worker, each with the
observations made on the way, oldest first. -/
inductive Reach : Sys σ U V → List (Obs U V) → Prop where
  | init (st0 : σ) : Reach (New st0) []
  | next {st st1 : Sys σ U V} {hist : List (Obs U V)} {l : Label U} {o : Obs U V} :
      Reach st hist → step act st l = .ok (st1, o) → Reach st1 (hist ++ [o])

/-- Running a list of labels from a state: the state reached and the
observations made, oldest first. -/
def run (st : Sys σ U V) : List (Label U) → Outcome (Sys σ U V × List (Obs U V))
  | [] => .ok (st, [])
  | l :: ls =>
    match step act st l with
    | .ok (st1, o) =>
      match run st1 ls with
      | .ok (st2, os) => .ok (st2, o :: os)
      | .panic => .panic
      | .pending => .pending
    | .panic => .panic
    | .pending => .pending

/-- The transitions of the step function, one rule for each way a step can
succeed, with the state it leaves written out. -/
inductive Trans : Sys σ U V → Obs U V → Sys σ U V → Prop where
  | spawnBusy (st : Sys σ U V) (num : Int) (e : Err) :
      st.caller = .idle → (st.w.i.isSome = true ∨ st.w.o.isSome = true) →
      Trans st (.spawnN num (some e)) st
  | spawnOk (st : Sys σ U V) (num : Int) :
      st.caller = .idle → st.w.i = none → st.w.o = none →
      Trans st (.spawnN num none)
        { st with
          w := { routines := num, i := some st.ichans.length, o := some st.ochans.length }
          ichans := st.ichans ++ [Chan.make]
          ochans := st.ochans ++ [Chan.make]
          execs := st.execs ++ List.replicate num.toNat .start }
  | waitErr (st : Sys σ U V) (e : Err) :
      st.caller = .idle → (st.w.i = none ∨ st.w.o = none) →
      Trans st (.waitRet (some e)) st
  | waitEnter (st : Sys σ U V) :
      st.caller = .idle → st.w.i.isSome = true → st.w.o.isSome = true →
      0 ≤ st.w.routines →
      Trans st .tau
        { st with wgs := st.wgs ++ [st.w.routines], caller := .waitLoop st.wgs.length 0 }
  | doDrop (st : Sys σ U V) :
      st.caller = .idle → st.w.i = none → Trans st .tau st
  | doEnter (st : Sys σ U V) (c : Nat) (m : Option U) :
      st.caller = .idle → st.w.i = some c →
      Trans st .tau { st with caller := .doSend c (m.map .user) }
  | sentryNil (st : Sys σ U V) :
      st.caller = .idle → (st.w.i = none ∨ st.w.o = none) →
      Trans st (.sentryNew none) st
  | sentryOk (st : Sys σ U V) :
      st.caller = .idle → st.w.i.isSome = true → st.w.o.isSome = true →
      Trans st (.sentryNew (some st.heap.sentries.length))
        { st with heap := { st.heap with
            sentries := st.heap.sentries ++ [{ results := [], waiter := 0 }] } }
  | guardDrop (st : Sys σ U V) (s : Nat) (sen : Sentry U V) :
      st.caller = .idle → st.heap.sentries[s]? = some sen → 0 ≤ sen.waiter + 1 →
      st.w.i = none →
      Trans st (.guardCall s)
        { st with heap := { st.heap with
            sentries := st.heap.sentries.set s { sen with waiter := sen.waiter + 1 } } }
  | guardEnter (st : Sys σ U V) (s : Nat) (sen : Sentry U V) (m : Option U) (c : Nat) :
      st.caller = .idle → st.heap.sentries[s]? = some sen → 0 ≤ sen.waiter + 1 →
      st.w.i = some c →
      Trans st (.guardCall s)
        { st with
          heap := { st.heap with
            sentries := st.heap.sentries.set s { sen with waiter := sen.waiter + 1 } }
          caller := .doSend c (some (.guard s m)) }
  | sentryWaitEnter (st : Sys σ U V) (s : Nat) :
      st.caller = .idle → Trans st .tau { st with caller := .sentryWait s }
  | doSend (st : Sys σ U V) (c : Nat) (m : Option (Job U V))
      (chans : List (Chan (Option (Job U V)))) :
      st.caller = .doSend c m → sendOn st.ichans (some c) m = .ok chans →
      Trans st .tau { st with ichans := chans, caller := .idle }
  | waitSend (st : Sys σ U V) (c i : Nat) (chans : List (Chan (Option (Job U V)))) :
      st.caller = .waitLoop c i → (i : Int) < st.w.routines →
      sendOn st.ichans st.w.i (some (.stop c)) = .ok chans →
      Trans st .tau { st with ichans := chans, caller := .waitLoop c (i + 1) }
  | waitSent (st : Sys σ U V) (c i : Nat) :
      st.caller = .waitLoop c i → ¬ (i : Int) < st.w.routines →
      Trans st .tau { st with caller := .waitBarrier c }
  | waitZero (st : Sys σ U V) (c : Nat) :
      st.caller = .waitBarrier c → st.wgs[c]? = some 0 →
      Trans st .tau { st with caller := .waitCloseI }
  | waitCloseI (st : Sys σ U V) (chans : List (Chan (Option (Job U V)))) :
      st.caller = .waitCloseI → closeOn st.ichans st.w.i = .ok chans →
      Trans st .tau { st with ichans := chans, caller := .waitCloseO }
  | waitCloseO (st : Sys σ U V) (chans : List (Chan (Result U V))) :
      st.caller = .waitCloseO → closeOn st.ochans st.w.o = .ok chans →
      Trans st .tau { st with ochans := chans, caller := .waitReset }
  | waitReset (st : Sys σ U V) :
      st.caller = .waitReset →
      Trans st (.waitRet none)
        { st with w := { st.w with i := none, o := none }, caller := .idle }
  | sentryWaitRet (st : Sys σ U V) (s : Nat) (sen : Sentry U V) :
      st.caller = .sentryWait s → st.heap.sentries[s]? = some sen → sen.waiter = 0 →
      Trans st (.sentryWaitRet s sen.results) { st with caller := .idle }
  | execStart (st : Sys σ U V) (k : Nat) :
      st.execs[k]? = some .start →
      Trans st .tau { st with execs := st.execs.set k (.recv st.w.i) }
  | execRecv (st : Sys σ U V) (k : Nat) (ci : Option Nat) (j : Job U V)
      (chans : List (Chan (Option (Job U V)))) :
      st.execs[k]? = some (.recv ci) → recvOn st.ichans ci = .ok (some (some j), chans) →
      Trans st .tau
        { st with ichans := chans, execs := st.execs.set k (.run ci (.call j) (stopWaiter j)) }
  | execRecvNil (st : Sys σ U V) (k : Nat) (ci : Option Nat)
      (chans : List (Chan (Option (Job U V)))) :
      st.execs[k]? = some (.recv ci) → recvOn st.ichans ci = .ok (some none, chans) →
      Trans st .tau { st with ichans := chans }
  | execRecvClosed (st : Sys σ U V) (k : Nat) (ci : Option Nat)
      (chans : List (Chan (Option (Job U V)))) :
      st.execs[k]? = some (.recv ci) → recvOn st.ichans ci = .ok (none, chans) →
      Trans st .tau { st with ichans := chans, execs := st.execs.set k .exited }
  | execRet (st : Sys σ U V) (k : Nat) (ci : Option Nat) (r : Result U V) (sw : Option Nat) :
      st.execs[k]? = some (.run ci (.ret r) sw) →
      Trans st .tau { st with execs := st.execs.set k (.send ci st.w.o r sw) }
  | execAct (st : Sys σ U V) (k : Nat) (ci : Option Nat) (a a1 : ActPC U V) (sw : Option Nat)
      (h1 : Heap σ U V) :
      st.execs[k]? = some (.run ci a sw) → ActPC.step act a st.heap = .ok (a1, h1) →
      Trans st .tau { st with heap := h1, execs := st.execs.set k (.run ci a1 sw) }
  | execSend (st : Sys σ U V) (k : Nat) (ci co : Option Nat) (r : Result U V) (sw : Option Nat)
      (chans : List (Chan (Result U V))) :
      st.execs[k]? = some (.send ci co r sw) → sendOn st.ochans co r = .ok chans →
      Trans st .tau { st with ochans := chans, execs := st.execs.set k (.spawn ci sw) }
  | execSpawn (st : Sys σ U V) (k : Nat) (ci : Option Nat) (sw : Option Nat) :
      st.execs[k]? = some (.spawn ci sw) →
      Trans st .tau
        { st with
          chasers := st.chasers ++ [.start sw]
          execs := st.execs.set k (if sw.isSome then .exited else .recv ci) }
  | chaseStart (st : Sys σ U V) (k : Nat) (wg : Option Nat) :
      st.chasers[k]? = some (.start wg) →
      Trans st .tau { st with chasers := st.chasers.set k (.recv st.w.o wg) }
  | chaseRecv (st : Sys σ U V) (k : Nat) (co wg : Option Nat) (r : Result U V)
      (chans : List (Chan (Result U V))) :
      st.chasers[k]? = some (.recv co wg) → recvOn st.ochans co = .ok (some r, chans) →
      Trans st .tau { st with ochans := chans, chasers := st.chasers.set k (.chain r wg) }
  | chaseRecvClosed (st : Sys σ U V) (k : Nat) (co wg : Option Nat)
      (chans : List (Chan (Result U V))) :
      st.chasers[k]? = some (.recv co wg) → recvOn st.ochans co = .ok (none, chans) →
      Trans st .tau { st with ochans := chans, chasers := st.chasers.set k (.chain .nil wg) }
  | chaseCall (st : Sys σ U V) (k : Nat) (j : Job U V) (wg : Option Nat) :
      st.chasers[k]? = some (.chain (.job j) wg) →
      Trans st .tau { st with chasers := st.chasers.set k (.act (.call j) wg) }
  | chaseFinal (st : Sys σ U V) (k : Nat) (r : Result U V) (wg : Option Nat) :
      st.chasers[k]? = some (.chain r wg) → r.isContinue = false →
      Trans st .tau { st with chasers := st.chasers.set k (.finish wg) }
  | chaseRet (st : Sys σ U V) (k : Nat) (r : Result U V) (wg : Option Nat) :
      st.chasers[k]? = some (.act (.ret r) wg) →
      Trans st .tau { st with chasers := st.chasers.set k (.chain r wg) }
  | chaseAct (st : Sys σ U V) (k : Nat) (a a1 : ActPC U V) (wg : Option Nat) (h1 : Heap σ U V) :
      st.chasers[k]? = some (.act a wg) → ActPC.step act a st.heap = .ok (a1, h1) →
      Trans st .tau { st with heap := h1, chasers := st.chasers.set k (.act a1 wg) }
  | chaseExit (st : Sys σ U V) (k : Nat) :
      st.chasers[k]? = some (.finish none) →
      Trans st .tau { st with chasers := st.chasers.set k .exited }
  | chaseDone (st : Sys σ U V) (k g : Nat) (c : Int) :
      st.chasers[k]? = some (.finish (some g)) → st.wgs[g]? = some c → 0 ≤ c - 1 →
      Trans st .tau { st with wgs := st.wgs.set g (c - 1), chasers := st.chasers.set k .exited }

end Concurrent

/-! ## A concrete caller, for the worked examples -/

/-- A concrete family of caller jobs.  The caller state counts the calls of
Action made so far.  Job 0 returns the plain value 100.  Job 1 returns job 2,
job 2 returns job 3, job 3 returns job 4 and job 4 returns the plain value
200: the raw result of job 1 is a chain of three continuations.  Job 5
returns itself.  Every other job returns nil. -/
def demoAct : Nat → Nat → UResult Nat Nat × Nat
  | 0, n => (.val 100, n + 1)
  | 1, n => (.cont 2, n + 1)
  | 2, n => (.cont 3, n + 1)
  | 3, n => (.cont 4, n + 1)
  | 4, n => (.val 200, n + 1)
  | 5, n => (.cont 5, n + 1)
  | _, n => (.nil, n + 1)

/-- A heap with one sentry that has recorded the value 7 and has c guarded
jobs outstanding. -/
def demoHeap (c : Int) : Heap Nat Nat Nat :=
  { user := 0, sentries := [{ results := [.val 7], waiter := c }] }

/-! ## Counting and histories -/

/-- The sum of f over a list. -/
def sumBy {α : Type} (f : α → Nat) (l : List α) : Nat := (l.map f).sum

/-- The sum of f over the items buffered in a list of channels. -/
def chanSum {α : Type} (f : α → Nat) (chans : List (Chan α)) : Nat :=
  sumBy (fun ch => sumBy f ch.buf) chans

/-- How an observation changes whether the pool is running: a SpawnN that
returned nil starts it, a Wait or Kill that returned nil stops it. -/
def Obs.lifecycle {U V : Type} (b : Bool) : Obs U V → Bool
  | .spawnN _ none => true
  | .waitRet none => false
  | _ => b

/-- The pool is running after a history: there was a successful SpawnN and no
successful Wait or Kill since. -/
def running {U V : Type} (hist : List (Obs U V)) : Bool :=
  hist.foldl Obs.lifecycle false

/-- One for a call of Guard on sentry s. -/
def Obs.isGuardCall {U V : Type} (s : Nat) : Obs U V → Nat
  | .guardCall s1 => if s1 = s then 1 else 0
  | _ => 0

/-- The number of calls of Guard on sentry s in a history. -/
def guardCalls {U V : Type} (s : Nat) (hist : List (Obs U V)) : Nat :=
  sumBy (Obs.isGuardCall s) hist

/-! ## Bookkeeping of a shutdown round -/

section Round

variable {σ U V : Type}

/-- One when the item of the inbound queue is the stop token with wait
group g. -/
def stopTok (g : Nat) : Option (Job U V) → Nat
  | some (.stop g1) => if g1 = g then 1 else 0
  | _ => 0

/-- One when the wait group variable points to wait group g. -/
def swTok (g : Nat) : Option Nat → Nat
  | some g1 => if g1 = g then 1 else 0
  | none => 0

/-- One when the wait group variable is nil. -/
def swNone : Option Nat → Nat
  | some _ => 0
  | none => 1

/-- One for an executor that will come back to the receive of its range
clause: it has not returned and its local sw is nil. -/
def ExecPC.inLoop : ExecPC U V → Nat
  | .start => 1
  | .recv _ => 1
  | .run _ _ sw => swNone sw
  | .send _ _ _ sw => swNone sw
  | .spawn _ sw => swNone sw
  | .exited => 0

/-- One for an executor that has taken the stop token with wait group g and
has not yet started the chase goroutine for it. -/
def ExecPC.holds (g : Nat) : ExecPC U V → Nat
  | .run _ _ sw => swTok g sw
  | .send _ _ _ sw => swTok g sw
  | .spawn _ sw => swTok g sw
  | _ => 0

/-- One for a chase goroutine that was started with wait group g and has not
yet called Done on it. -/
def ChasePC.carries (g : Nat) : ChasePC U V → Nat
  | .start wg => swTok g wg
  | .recv _ wg => swTok g wg
  | .chain _ wg => swTok g wg
  | .act _ wg => swTok g wg
  | .finish wg => swTok g wg
  | .exited => 0

/-- One when the caller stands at the send of the stop token with wait
group g. -/
def CallerPC.sending (g : Nat) : CallerPC U V → Nat
  | .doSend _ m => stopTok g m
  | _ => 0

/-- The number of stop tokens of wait group g that Wait has still to send. -/
def CallerPC.toSend (routines : Int) (g : Nat) : CallerPC U V → Nat
  | .waitLoop c i => if c = g then (routines - i).toNat else 0
  | _ => 0

/-- The wait group of the shutdown round the caller is in: inside Wait, up to
the return of c.waiter.Wait(). -/
def CallerPC.round : CallerPC U V → Option Nat
  | .waitLoop c _ => some c
  | .waitBarrier c => some c
  | _ => none

/-- The counter of wait group g (zero when it is not allocated). -/
def Sys.barrier (st : Sys σ U V) (g : Nat) : Int := (st.wgs[g]?).getD 0

/-- Stop tokens of wait group g that are sent and not yet taken. -/
def Sys.stopTokens (st : Sys σ U V) (g : Nat) : Nat :=
  chanSum (stopTok g) st.ichans + st.caller.sending g

/-- Executors that hold the stop token of wait group g. -/
def Sys.holders (st : Sys σ U V) (g : Nat) : Nat := sumBy (ExecPC.holds g) st.execs

/-- Chase goroutines that still have to call Done on wait group g. -/
def Sys.carriers (st : Sys σ U V) (g : Nat) : Nat := sumBy (ChasePC.carries g) st.chasers

/-- Executors that are in their loop and have taken no stop token. -/
def Sys.loopers (st : Sys σ U V) : Nat := sumBy ExecPC.inLoop st.execs

/-- The bound on the executors in their loop: the tokens of the round that
are not yet taken while Wait is in its round, none while Wait closes the
queues, and else w.routines on a running pool and none on an idle one. -/
def Sys.expected (st : Sys σ U V) : Nat :=
  match st.caller with
  | .waitLoop c i => (st.w.routines - i).toNat + st.stopTokens c
  | .waitBarrier c => st.stopTokens c
  | .waitCloseI => 0
  | .waitCloseO => 0
  | .waitReset => 0
  | _ => if st.w.i.isSome then st.w.routines.toNat else 0

/-- The invariant of the shutdown handshake.  For every wait group g of a stop
token, the counter equals the tokens still to send, plus the tokens sent and
not taken, plus the executors holding one, plus the chase goroutines that
have one to acknowledge; outside its round the counter is zero; and the
executors still in their loop are at most the tokens of the round that no
executor has taken yet. -/
structure ShutdownInv (st : Sys σ U V) : Prop where
  barrier : ∀ g, st.barrier g
    = ((st.caller.toSend st.w.routines g + st.stopTokens g + st.holders g + st.carriers g : Nat)
        : Int)
  zero : ∀ g, st.caller.round ≠ some g → st.barrier g = 0
  loopers : st.loopers ≤ st.expected

end Round

/-! ## Bookkeeping of guarded jobs -/

section GuardCount

variable {σ U V : Type}

/-- One for a guard or unguard bound to sentry s: a guarded job of s that has
not yet recorded its result. -/
def Job.owes (s : Nat) : Job U V → Nat
  | .guard s1 _ => if s1 = s then 1 else 0
  | .unguard s1 _ => if s1 = s then 1 else 0
  | _ => 0

/-- The guarded job of sentry s in an item of the inbound queue. -/
def owesJob (s : Nat) : Option (Job U V) → Nat
  | some j => j.owes s
  | none => 0

/-- The guarded job of sentry s in a Result. -/
def Result.owes (s : Nat) : Result U V → Nat
  | .job j => j.owes s
  | _ => 0

/-- The guarded job of sentry s inside a running call of Action, as long as its
result is not appended. -/
def ActPC.owes (s : Nat) : ActPC U V → Nat
  | .call j => j.owes s
  | .inner s1 _ => if s1 = s then 1 else 0
  | .done _ _ => 0
  | .ret r => r.owes s

/-- One for a call of unguard.Action on sentry s that has appended its result
and has not yet called Done. -/
def ActPC.closing (s : Nat) : ActPC U V → Nat
  | .done s1 _ => if s1 = s then 1 else 0
  | _ => 0

/-- The guarded job of sentry s an executor has in hand. -/
def ExecPC.owes (s : Nat) : ExecPC U V → Nat
  | .run _ a _ => a.owes s
  | .send _ _ r _ => r.owes s
  | _ => 0

/-- An executor between the append and Done for sentry s. -/
def ExecPC.closing (s : Nat) : ExecPC U V → Nat
  | .run _ a _ => a.closing s
  | _ => 0

/-- The guarded job of sentry s a chase goroutine has in hand. -/
def ChasePC.owes (s : Nat) : ChasePC U V → Nat
  | .chain r _ => r.owes s
  | .act a _ => a.owes s
  | _ => 0

/-- A chase goroutine between the append and Done for sentry s. -/
def ChasePC.closing (s : Nat) : ChasePC U V → Nat
  | .act a _ => a.closing s
  | _ => 0

/-- The guarded job of sentry s the caller is sending. -/
def CallerPC.owes (s : Nat) : CallerPC U V → Nat
  | .doSend _ m => owesJob s m
  | _ => 0

/-- The counter of the wait group of sentry s (zero when there is no such
sentry). -/
def Heap.waiter (h : Heap σ U V) (s : Nat) : Int :=
  match h.sentries[s]? with
  | some sen => sen.waiter
  | none => 0

/-- The number of results sentry s has recorded. -/
def Heap.recorded (h : Heap σ U V) (s : Nat) : Nat :=
  match h.sentries[s]? with
  | some sen => sen.results.length
  | none => 0

/-- The guarded jobs of sentry s that are somewhere in the system and have not
yet recorded their result: with the caller, in a queue, or with a
goroutine. -/
def Sys.owed (st : Sys σ U V) (s : Nat) : Nat :=
  st.caller.owes s + chanSum (owesJob s) st.ichans + sumBy (ExecPC.owes s) st.execs
    + chanSum (Result.owes s) st.ochans + sumBy (ChasePC.owes s) st.chasers

/-- The goroutines between the append and Done for sentry s. -/
def Sys.closing (st : Sys σ U V) (s : Nat) : Nat :=
  sumBy (ExecPC.closing s) st.execs + sumBy (ChasePC.closing s) st.chasers

/-- The invariant of a sentry.  The outstanding count plus the recorded
results equal the calls of Guard plus the goroutines that have appended and
not yet called Done; and the count covers every guarded job that is still in
the system, so Done never finds it at zero, plus lost s, a number of guarded
jobs of sentry s that Do has dropped. -/
structure GuardInv (lost : Nat → Nat) (st : Sys σ U V) (hist : List (Obs U V)) : Prop where
  count : ∀ s, st.heap.waiter s + (st.heap.recorded s : Int)
    = ((guardCalls s hist + st.closing s : Nat) : Int)
  owed : ∀ s, ((st.owed s + st.closing s + lost s : Nat) : Int) ≤ st.heap.waiter s

end GuardCount

/-! ## A schedule for the shutdown round -/

section Schedule

variable {σ U V : Type}

/-- The schedule that takes one stop token from Wait through executor k and
the chase goroutine c that executor starts: the caller sends the token, the
executor reaches its range clause, takes the token, runs its Action, reads
w.o, sends the result, starts the chase goroutine and returns; the chase
goroutine reads w.o, receives, runs chainJob and calls Done. -/
def tokenRound (k c : Nat) : List (Label U) :=
  [.caller, .exec k, .exec k, .exec k, .exec k, .exec k, .exec k,
    .chase c, .chase c, .chase c, .chase c]

end Schedule

/-! ## Concrete runs, for the worked examples -/

/-- A run in which a pool of one executor is spawned, the executor takes job 0
off the queue and is about to run it, and the caller calls Do on job 1. -/
def demoBusyRun : List (Label Nat) :=
  [.spawnN 1, .exec 0, .submit (some 0), .caller, .exec 0, .submit (some 1)]

/-- The state at the end of demoBusyRun: the only executor is inside the call
of Action of job 0, the inbound queue is empty, and the caller stands at the
send of job 1. -/
def demoBusy : Sys Nat Nat Nat :=
  { heap := { user := 0, sentries := [] }
    w := { routines := 1, i := some 0, o := some 0 }
    ichans := [{ buf := [], closed := false }]
    ochans := [{ buf := [], closed := false }]
    wgs := []
    execs := [.run (some 0) (.call (.user 0)) none]
    chasers := []
    caller := .doSend 0 (some (.user 1)) }

/-- The state demoBusy after the send of the caller: job 1 is in the buffer of
the inbound queue and Do has returned. -/
def demoBuffered : Sys Nat Nat Nat :=
  { demoBusy with ichans := [{ buf := [some (.user 1)], closed := false }], caller := .idle }

/-- A run in which a pool of two executors is spawned, a sentry is made, job 0
and job 1 are guarded, and the first guarded job has been taken by executor 0,
run, relayed, chased by its chase goroutine and recorded, while the second is
still in the inbound queue. -/
def demoGuardRun : List (Label Nat) :=
  [.spawnN 2, .sentry, .guard 0 (some 0), .caller, .exec 0, .exec 0, .guard 0 (some 1), .caller,
    .exec 0, .exec 0, .exec 0, .exec 0, .chase 0, .chase 0, .chase 0, .chase 0, .chase 0]

/-- The state at the end of demoGuardRun: the chase goroutine of the first
guarded job has appended the value 100 and has not yet called Done, so the
sentry has one result and still an outstanding count of two. -/
def demoGuarded : Sys Nat Nat Nat :=
  { heap := { user := 1, sentries := [{ results := [.val 100], waiter := 2 }] }
    w := { routines := 2, i := some 0, o := some 0 }
    ichans := [{ buf := [some (.guard 0 (some 1))], closed := false }]
    ochans := [{ buf := [], closed := false }]
    wgs := []
    execs := [.recv (some 0), .start]
    chasers := [.act (.done 0 (.val 100)) none]
    caller := .idle }

/-- A run in which a pool of two executors is spawned, Wait is called, and the
first of the two stop tokens has gone through executor 0 and its chase
goroutine. -/
def demoMidRun : List (Label Nat) := [.spawnN 2, .wait] ++ tokenRound 0 0

/-- The state at the end of demoMidRun: one stop token is still to send, the
barrier is at one, executor 0 has returned and executor 1 has not started. -/
def demoMid : Sys Nat Nat Nat :=
  { heap := { user := 0, sentries := [] }
    w := { routines := 2, i := some 0, o := some 0 }
    ichans := [{ buf := [], closed := false }]
    ochans := [{ buf := [], closed := false }]
    wgs := [1]
    execs := [.exited, .start]
    chasers := [.exited]
    caller := .waitLoop 0 1 }

/-- The state of a fresh worker after SpawnN(2). -/
def demoRunning : Sys Nat Nat Nat := SpawnN 2 0

section Pairing

variable {σ U V : Type}

end Pairing

/-! ## The round of a Wait that follows SpawnN at once -/

section Quiet

variable {σ U V : Type}

/-- The wait group a goroutine running Worker.advance was started with. -/
def ChasePC.wg : ChasePC U V → Option Nat
  | .start wg => wg
  | .recv _ wg => wg
  | .chain _ wg => wg
  | .act _ wg => wg
  | .finish wg => wg
  | .exited => none

end Quiet

/-! ## Sequential layer: facts about chainJob and the guard protocol -/

section SequentialFacts

variable {σ U V : Type} (act : U → σ → UResult U V × σ)

theorem chainJob_final (fuel : Nat) (r : Result U V) (h : Heap σ U V)
    (hr : r.isContinue = false) : chainJob act fuel r h = .ok (r, h) := by
  cases r with
  | nil => cases fuel <;> simp [chainJob]
  | val v => cases fuel <;> simp [chainJob]
  | job j => simp [Result.isContinue] at hr

theorem chainJob_result_final (fuel : Nat) :
    ∀ (r : Result U V) (h : Heap σ U V) (r1 : Result U V) (h1 : Heap σ U V),
      chainJob act fuel r h = .ok (r1, h1) → r1.isContinue = false := by
  induction fuel with
  | zero =>
    intro r h r1 h1 hrun
    cases r <;> simp [chainJob] at hrun
    · simp [← hrun.1, Result.isContinue]
    · simp [← hrun.1, Result.isContinue]
  | succ n ih =>
    intro r h r1 h1 hrun
    cases r with
    | nil => simp [chainJob] at hrun; simp [← hrun.1, Result.isContinue]
    | val v => simp [chainJob] at hrun; simp [← hrun.1, Result.isContinue]
    | job j =>
      simp only [chainJob] at hrun
      cases hact : Job.Action act n j h with
      | ok p =>
        obtain ⟨r2, h2⟩ := p
        rw [hact] at hrun
        exact ih r2 h2 r1 h1 hrun
      | panic => rw [hact] at hrun; cases hrun
      | pending => rw [hact] at hrun; cases hrun

theorem UResult.toResult_isContinue (v : UResult U V) (hv : v.isFinal = true) :
    v.toResult.isContinue = false := by
  cases v <;> simp_all [UResult.isFinal, UResult.toResult, Result.isContinue]

end SequentialFacts

/-! ## The two renderings of Action agree -/

section Renderings

variable {σ U V : Type} (act : U → σ → UResult U V × σ)

theorem ActPC.run_ret (n : Nat) (r : Result U V) (h : Heap σ U V) :
    ActPC.run act n (.ret r) h = .ok (r, h) := by
  cases n <;> simp [ActPC.run]

theorem ActPC.run_succ (n : Nat) (a a1 : ActPC U V) (h h1 : Heap σ U V)
    (hs : ActPC.step act a h = .ok (a1, h1)) :
    ActPC.run act (n + 1) a h = ActPC.run act n a1 h1 := by
  cases a with
  | ret r => simp [ActPC.step] at hs
  | call j => simp [ActPC.run, hs]
  | inner s r => simp [ActPC.run, hs]
  | done s r => simp [ActPC.run, hs]

/-- The tail of unguard.Action in two steps (the append, then Done) is the
tail in one go. -/
theorem ActPC.run_record (n : Nat) (s : Nat) (v : UResult U V) (hv : v.isFinal = true)
    (h h1 : Heap σ U V) (r : Result U V) (hrec : Sentry.record s v.toResult h = .ok (r, h1)) :
    ActPC.run act (n + 2) (.inner s v) h = .ok (r, h1) := by
  unfold Sentry.record at hrec
  cases hs : h.sentries[s]? with
  | none => simp [hs] at hrec
  | some sen =>
    simp only [hs] at hrec
    cases hd : WaitGroup.Done sen.waiter with
    | ok c =>
      simp only [hd, Outcome.ok.injEq, Prod.mk.injEq] at hrec
      obtain ⟨rfl, rfl⟩ := hrec
      have hlt : s < h.sentries.length := by
        rcases List.getElem?_eq_some.mp hs with ⟨h2, _⟩; exact h2
      have h1 : ActPC.step act (.inner s v) h
          = .ok (.done s v,
              ⟨h.user, h.sentries.set s ⟨sen.results ++ [v.toResult], sen.waiter⟩⟩) := by
        cases v with
        | nil => simp [ActPC.step, hs]
        | val w => simp [ActPC.step, hs]
        | cont u => simp [UResult.isFinal] at hv
      rw [ActPC.run_succ act _ _ _ _ _ h1]
      have h2 : ActPC.step act (.done s v)
          ⟨h.user, h.sentries.set s ⟨sen.results ++ [v.toResult], sen.waiter⟩⟩
          = .ok (.ret v.toResult,
              ⟨h.user, h.sentries.set s ⟨sen.results ++ [v.toResult], c⟩⟩) := by
        simp [ActPC.step, List.getElem?_set_self hlt, hd, List.set_set]
      rw [ActPC.run_succ act _ _ _ _ _ h2, ActPC.run_ret]
    | panic => simp [hd] at hrec
    | pending => simp [hd] at hrec

/-- The loop of chainJob(m.result) inside unguard.Action, step by step, follows
chainJob. -/
theorem ActPC.run_inner (s : Nat) (fuel : Nat) :
    ∀ (ur : UResult U V) (h h2 : Heap σ U V) (result : Result U V),
      chainJob act fuel ur.toResult h = .ok (result, h2) →
      ∃ (v : UResult U V) (k : Nat), v.isFinal = true ∧ result = v.toResult ∧
        ∀ m, ActPC.run act (k + m) (.inner s ur) h = ActPC.run act m (.inner s v) h2 := by
  induction fuel with
  | zero =>
    intro ur h h2 result hch
    cases ur with
    | nil =>
      simp only [UResult.toResult, chainJob, Outcome.ok.injEq, Prod.mk.injEq] at hch
      obtain ⟨rfl, rfl⟩ := hch
      exact ⟨.nil, 0, rfl, rfl, fun m => by simp⟩
    | val w =>
      simp only [UResult.toResult, chainJob, Outcome.ok.injEq, Prod.mk.injEq] at hch
      obtain ⟨rfl, rfl⟩ := hch
      exact ⟨.val w, 0, rfl, rfl, fun m => by simp⟩
    | cont u => simp [UResult.toResult, chainJob] at hch
  | succ f ih =>
    intro ur h h2 result hch
    cases ur with
    | nil =>
      simp only [UResult.toResult, chainJob, Outcome.ok.injEq, Prod.mk.injEq] at hch
      obtain ⟨rfl, rfl⟩ := hch
      exact ⟨.nil, 0, rfl, rfl, fun m => by simp⟩
    | val w =>
      simp only [UResult.toResult, chainJob, Outcome.ok.injEq, Prod.mk.injEq] at hch
      obtain ⟨rfl, rfl⟩ := hch
      exact ⟨.val w, 0, rfl, rfl, fun m => by simp⟩
    | cont u =>
      have hact : Job.Action act f (.user u) h
          = .ok ((act u h.user).1.toResult, { h with user := (act u h.user).2 }) := by
        cases f <;> simp [Job.Action]
      simp only [UResult.toResult, chainJob, hact] at hch
      obtain ⟨v, k, hv, hres, hrun⟩ := ih _ _ _ _ hch
      refine ⟨v, k + 1, hv, hres, fun m => ?_⟩
      have hstep : ActPC.step act (.inner s (.cont u)) h
          = .ok (.inner s (act u h.user).1, { h with user := (act u h.user).2 }) := by
        simp [ActPC.step]
      have : k + 1 + m = (k + m) + 1 := by omega
      rw [this, ActPC.run_succ act _ _ _ _ _ hstep]
      exact hrun m

/-- The two renderings of the method Action agree: whatever the call returns
in the sequential layer, the step-by-step call returns, with the same heap. -/
theorem ActPC.run_of_Action (fuel : Nat) (j : Job U V) (h h1 : Heap σ U V) (r : Result U V)
    (hact : Job.Action act fuel j h = .ok (r, h1)) :
    ∃ n, ActPC.run act n (.call j) h = .ok (r, h1) := by
  cases j with
  | user u =>
    have : Job.Action act fuel (.user u) h
        = .ok ((act u h.user).1.toResult, { h with user := (act u h.user).2 }) := by
      cases fuel <;> simp [Job.Action]
    rw [this] at hact
    simp only [Outcome.ok.injEq, Prod.mk.injEq] at hact
    obtain ⟨rfl, rfl⟩ := hact
    exact ⟨1, by simp [ActPC.run, ActPC.step]⟩
  | guard s m =>
    cases m with
    | none => cases fuel <;> simp [Job.Action] at hact
    | some u =>
      have : Job.Action act fuel (.guard s (some u)) h
          = .ok (.job (.unguard s (act u h.user).1), { h with user := (act u h.user).2 }) := by
        cases fuel <;> simp [Job.Action]
      rw [this] at hact
      simp only [Outcome.ok.injEq, Prod.mk.injEq] at hact
      obtain ⟨rfl, rfl⟩ := hact
      exact ⟨1, by simp [ActPC.run, ActPC.step]⟩
  | stop g =>
    have : Job.Action act fuel (.stop g) h = .ok (.nil, h) := by
      cases fuel <;> simp [Job.Action]
    rw [this] at hact
    simp only [Outcome.ok.injEq, Prod.mk.injEq] at hact
    obtain ⟨rfl, rfl⟩ := hact
    exact ⟨1, by simp [ActPC.run, ActPC.step]⟩
  | unguard s ur =>
    cases fuel with
    | zero => simp [Job.Action] at hact
    | succ f =>
      simp only [Job.Action] at hact
      cases hch : chainJob act f ur.toResult h with
      | ok p =>
        obtain ⟨result, h2⟩ := p
        simp only [hch] at hact
        obtain ⟨v, k, hv, hres, hrun⟩ := ActPC.run_inner act s f ur h h2 result hch
        subst hres
        refine ⟨(k + 2) + 1, ?_⟩
        have hstep : ActPC.step act (.call (.unguard s ur)) h = .ok (.inner s ur, h) := by
          simp [ActPC.step]
        rw [ActPC.run_succ act _ _ _ _ _ hstep, hrun 2]
        exact ActPC.run_record act 0 s v hv h2 h1 r hact
      | panic => simp [hch] at hact
      | pending => simp [hch] at hact

theorem ActPC.inner_of_run (s : Nat) (n : Nat) :
    ∀ (ur : UResult U V) (h h1 : Heap σ U V) (r : Result U V),
      ActPC.run act n (.inner s ur) h = .ok (r, h1) →
      ∃ (fuel : Nat) (result : Result U V) (h2 : Heap σ U V),
        chainJob act fuel ur.toResult h = .ok (result, h2) ∧
        Sentry.record s result h2 = .ok (r, h1) := by
  induction n with
  | zero => intro ur h h1 r hrun; simp [ActPC.run] at hrun
  | succ n ih =>
    intro ur h h1 r hrun
    have hfinal : ∀ v : UResult U V, v.isFinal = true →
        ActPC.run act (n + 1) (.inner s v) h = .ok (r, h1) →
        ∃ (fuel : Nat) (result : Result U V) (h2 : Heap σ U V),
          chainJob act fuel v.toResult h = .ok (result, h2) ∧
          Sentry.record s result h2 = .ok (r, h1) := by
      intro v hv hrun
      refine ⟨0, v.toResult, h, chainJob_final act 0 _ _ (UResult.toResult_isContinue v hv), ?_⟩
      cases hs : h.sentries[s]? with
      | none =>
        have : ActPC.step act (.inner s v) h = .panic := by
          cases v with
          | nil => simp [ActPC.step, hs]
          | val w => simp [ActPC.step, hs]
          | cont u => simp [UResult.isFinal] at hv
        simp [ActPC.run, this] at hrun
      | some sen =>
        have hlt : s < h.sentries.length := by
          rcases List.getElem?_eq_some.mp hs with ⟨h2, _⟩; exact h2
        have h1s : ActPC.step act (.inner s v) h
            = .ok (.done s v,
                ⟨h.user, h.sentries.set s ⟨sen.results ++ [v.toResult], sen.waiter⟩⟩) := by
          cases v with
          | nil => simp [ActPC.step, hs]
          | val w => simp [ActPC.step, hs]
          | cont u => simp [UResult.isFinal] at hv
        rw [ActPC.run_succ act _ _ _ _ _ h1s] at hrun
        cases n with
        | zero => simp [ActPC.run] at hrun
        | succ m =>
          cases hd : WaitGroup.Done sen.waiter with
          | ok c =>
            have h2s : ActPC.step act (.done s v)
                ⟨h.user, h.sentries.set s ⟨sen.results ++ [v.toResult], sen.waiter⟩⟩
                = .ok (.ret v.toResult,
                    ⟨h.user, h.sentries.set s ⟨sen.results ++ [v.toResult], c⟩⟩) := by
              simp [ActPC.step, List.getElem?_set_self hlt, hd, List.set_set]
            rw [ActPC.run_succ act _ _ _ _ _ h2s, ActPC.run_ret] at hrun
            simp only [Outcome.ok.injEq, Prod.mk.injEq] at hrun
            obtain ⟨rfl, rfl⟩ := hrun
            simp [Sentry.record, hs, hd]
          | panic =>
            simp [ActPC.run, ActPC.step, List.getElem?_set_self hlt, hd] at hrun
          | pending =>
            simp [ActPC.run, ActPC.step, List.getElem?_set_self hlt, hd] at hrun
    cases ur with
    | nil => exact hfinal _ rfl hrun
    | val w => exact hfinal _ rfl hrun
    | cont u =>
      have hstep : ActPC.step act (.inner s (.cont u)) h
          = .ok (.inner s (act u h.user).1, { h with user := (act u h.user).2 }) := by
        simp [ActPC.step]
      rw [ActPC.run_succ act _ _ _ _ _ hstep] at hrun
      obtain ⟨f, result, h2, hch, hrec⟩ := ih _ _ _ _ hrun
      refine ⟨f + 1, result, h2, ?_, hrec⟩
      have hact : Job.Action act f (.user u) h
          = .ok ((act u h.user).1.toResult, { h with user := (act u h.user).2 }) := by
        cases f <;> simp [Job.Action]
      simp only [UResult.toResult, chainJob, hact]
      exact hch

/-- The two renderings of the method Action agree, the other way round:
whatever the step-by-step call returns, the call of the sequential layer
returns with enough fuel, with the same heap. -/
theorem ActPC.Action_of_run (n : Nat) (j : Job U V) (h h1 : Heap σ U V) (r : Result U V)
    (hrun : ActPC.run act n (.call j) h = .ok (r, h1)) :
    ∃ fuel, Job.Action act fuel j h = .ok (r, h1) := by
  cases n with
  | zero => simp [ActPC.run] at hrun
  | succ n =>
    cases j with
    | user u =>
      simp only [ActPC.run, ActPC.step] at hrun
      exact ⟨0, by simpa [Job.Action] using hrun⟩
    | guard s m =>
      cases m with
      | none => simp [ActPC.run, ActPC.step] at hrun
      | some u =>
        simp only [ActPC.run, ActPC.step] at hrun
        exact ⟨0, by simpa [Job.Action] using hrun⟩
    | stop g =>
      simp only [ActPC.run, ActPC.step] at hrun
      exact ⟨0, by simpa [Job.Action] using hrun⟩
    | unguard s ur =>
      have hstep : ActPC.step act (.call (.unguard s ur)) h = .ok (.inner s ur, h) := by
        simp [ActPC.step]
      rw [ActPC.run_succ act _ _ _ _ _ hstep] at hrun
      obtain ⟨f, result, h2, hch, hrec⟩ := ActPC.inner_of_run act s n ur h h1 r hrun
      exact ⟨f + 1, by simp [Job.Action, hch, hrec]⟩

end Renderings

/-! ## Concurrent layer: every step is one of the transitions -/

section Inversion

variable {σ U V : Type} (act : U → σ → UResult U V × σ)

theorem CallerPC.isIdle_iff (c : CallerPC U V) : c.isIdle = true ↔ c = .idle := by
  cases c <;> simp [CallerPC.isIdle]

theorem WaitGroup.Add_ok {c d r : Int} (h : WaitGroup.Add c d = .ok r) : r = c + d ∧ 0 ≤ c + d := by
  unfold WaitGroup.Add at h
  split at h
  · cases h
  · cases h; omega

theorem Worker.routine_trans {k : Nat} {st st1 : Sys σ U V}
    (h : Worker.routine act k st = .ok st1) :
    Trans act st .tau st1 := by
  unfold Worker.routine at h
  split at h
  · cases h
  · cases h; exact Trans.execStart st k ‹_›
  · rename_i ci hk
    split at h
    · cases h; exact Trans.execRecv st k ci _ _ hk ‹_›
    · cases h; exact Trans.execRecvNil st k ci _ hk ‹_›
    · cases h; exact Trans.execRecvClosed st k ci _ hk ‹_›
    · cases h
    · cases h
  · cases h; exact Trans.execRet st k _ _ _ ‹_›
  · rename_i ci a sw hne hk
    split at h
    · cases h; exact Trans.execAct st k ci a _ sw _ hk ‹_›
    · cases h
    · cases h
  · rename_i ci co r sw hk
    split at h
    · cases h; exact Trans.execSend st k ci co r sw _ hk ‹_›
    · cases h
    · cases h
  · cases h; exact Trans.execSpawn st k _ _ ‹_›
  · cases h

theorem Worker.advance_trans {k : Nat} {st st1 : Sys σ U V}
    (h : Worker.advance act k st = .ok st1) :
    Trans act st .tau st1 := by
  unfold Worker.advance at h
  split at h
  · cases h
  · cases h; exact Trans.chaseStart st k _ ‹_›
  · rename_i co wg hk
    split at h
    · cases h; exact Trans.chaseRecv st k co wg _ _ hk ‹_›
    · cases h; exact Trans.chaseRecvClosed st k co wg _ hk ‹_›
    · cases h
    · cases h
  · cases h; exact Trans.chaseCall st k _ _ ‹_›
  · rename_i r wg hne hk
    cases h
    refine Trans.chaseFinal st k r wg hk ?_
    cases r <;> simp [Result.isContinue]
    exact hne _ rfl
  · cases h; exact Trans.chaseRet st k _ _ ‹_›
  · rename_i a wg hne hk
    split at h
    · cases h; exact Trans.chaseAct st k a _ wg _ hk ‹_›
    · cases h
    · cases h
  · cases h; exact Trans.chaseExit st k ‹_›
  · rename_i g hk
    split at h
    · cases h
    · rename_i c hc
      split at h
      · rename_i c1 hd
        cases h
        obtain ⟨h1, h2⟩ := WaitGroup.Add_ok hd
        subst h1
        exact Trans.chaseDone st k g c hk hc (by omega)
      · cases h
  · cases h

theorem callerStep_trans {st st1 : Sys σ U V} {o : Obs U V} (h : callerStep st = .ok (st1, o)) :
    Trans act st o st1 := by
  unfold callerStep at h
  split at h
  · cases h
  · rename_i c m hc
    split at h
    · cases h; exact Trans.doSend st c m _ hc ‹_›
    · cases h
    · cases h
  · rename_i c i hc
    split at h
    · rename_i hlt
      split at h
      · cases h; exact Trans.waitSend st c i _ hc hlt ‹_›
      · cases h
      · cases h
    · cases h; exact Trans.waitSent st c i hc ‹_›
  · rename_i c hc
    split at h
    · cases h
    · rename_i n hn
      split at h
      · rename_i hz
        subst hz
        cases h; exact Trans.waitZero st c hc hn
      · cases h
  · rename_i hc
    split at h
    · cases h; exact Trans.waitCloseI st _ hc ‹_›
    · cases h
  · rename_i hc
    split at h
    · cases h; exact Trans.waitCloseO st _ hc ‹_›
    · cases h
  · cases h; exact Trans.waitReset st ‹_›
  · rename_i s hc
    split at h
    · rename_i results hw
      cases h
      unfold Sentry.Wait at hw
      split at hw
      · cases hw
      · rename_i sen hs
        split at hw
        · cases hw; exact Trans.sentryWaitRet st s sen hc hs ‹_›
        · cases hw
    · cases h
    · cases h

theorem Worker.Wait_trans {st st1 : Sys σ U V} {e : Option Err}
    (hidle : st.caller = .idle) (h : Worker.Wait st = .ok (e, st1)) :
    Trans act st (match e with | some e1 => .waitRet (some e1) | none => .tau) st1 := by
  unfold Worker.Wait at h
  split at h
  · rename_i h1
    cases h
    exact Trans.waitErr st _ hidle (Or.inl (by simpa using h1))
  · split at h
    · rename_i h1 h2
      cases h
      exact Trans.waitErr st _ hidle (Or.inr (by simpa using h2))
    · rename_i h1 h2
      split at h
      · rename_i c hc
        cases h
        obtain ⟨h3, h4⟩ := WaitGroup.Add_ok hc
        simp only [zero_add] at h3 h4
        subst h3
        simp only [Option.isNone_iff_eq_none, ← ne_eq, Option.ne_none_iff_isSome] at h1 h2
        exact Trans.waitEnter st hidle h1 h2 h4
      · cases h

theorem step_trans {st st1 : Sys σ U V} {l : Label U} {o : Obs U V}
    (h : step act st l = .ok (st1, o)) : Trans act st o st1 := by
  cases l with
  | spawnN num =>
    simp only [step] at h
    split at h
    · rename_i hidle
      rw [CallerPC.isIdle_iff] at hidle
      cases h
      unfold Worker.SpawnN
      split
      · exact Trans.spawnBusy st num _ hidle (Or.inl ‹_›)
      · split
        · exact Trans.spawnBusy st num _ hidle (Or.inr ‹_›)
        · rename_i h1 h2
          simp at h1 h2
          exact Trans.spawnOk st num hidle h1 h2
    · cases h
  | wait =>
    simp only [step] at h
    split at h
    · rename_i hidle
      rw [CallerPC.isIdle_iff] at hidle
      split at h
      · cases h; exact Worker.Wait_trans act hidle ‹_›
      · cases h; exact Worker.Wait_trans act hidle ‹_›
      · cases h
      · cases h
    · cases h
  | kill =>
    simp only [step, Worker.Kill] at h
    split at h
    · rename_i hidle
      rw [CallerPC.isIdle_iff] at hidle
      split at h
      · cases h; exact Worker.Wait_trans act hidle ‹_›
      · cases h; exact Worker.Wait_trans act hidle ‹_›
      · cases h
      · cases h
    · cases h
  | submit m =>
    simp only [step] at h
    split at h
    · rename_i hidle
      rw [CallerPC.isIdle_iff] at hidle
      cases h
      unfold Worker.Do
      split
      · exact Trans.doDrop st hidle ‹_›
      · exact Trans.doEnter st _ m hidle ‹_›
    · cases h
  | sentry =>
    simp only [step] at h
    split at h
    · rename_i hidle
      rw [CallerPC.isIdle_iff] at hidle
      cases h
      unfold Worker.Sentry
      split
      · rename_i h1
        simp only [Bool.or_eq_true, Option.isNone_iff_eq_none] at h1
        exact Trans.sentryNil st hidle h1
      · rename_i h1
        simp only [Bool.or_eq_true, Option.isNone_iff_eq_none, not_or, ← ne_eq,
          Option.ne_none_iff_isSome] at h1
        exact Trans.sentryOk st hidle h1.1 h1.2
    · cases h
  | guard s m =>
    simp only [step] at h
    split at h
    · rename_i hidle
      rw [CallerPC.isIdle_iff] at hidle
      split at h
      · rename_i st2 hg
        cases h
        unfold Sentry.Guard at hg
        split at hg
        · cases hg
        · rename_i sen hs
          split at hg
          · rename_i c hc
            obtain ⟨h3, h4⟩ := WaitGroup.Add_ok hc
            subst h3
            cases hg
            unfold Worker.Do
            split
            · rename_i hi
              exact Trans.guardDrop st s sen hidle hs h4 hi
            · rename_i c hi
              exact Trans.guardEnter st s sen m c hidle hs h4 hi
          · cases hg
      · cases h
      · cases h
    · cases h
  | sentryWait s =>
    simp only [step] at h
    split at h
    · rename_i hidle
      rw [CallerPC.isIdle_iff] at hidle
      cases h
      exact Trans.sentryWaitEnter st s hidle
    · cases h
  | caller => exact callerStep_trans act h
  | exec k =>
    simp only [step] at h
    split at h
    · cases h; exact Worker.routine_trans act ‹_›
    · cases h
    · cases h
  | chase k =>
    simp only [step] at h
    split at h
    · cases h; exact Worker.advance_trans act ‹_›
    · cases h
    · cases h

end Inversion

section Claims1

variable {σ U V : Type} (act : U → σ → UResult U V × σ)

/-- C3.  Continuation chasing is idempotent.  On a Result that is nil or not a
Continue, chainJob returns that Result and the heap it was given, whatever the
fuel: nothing is executed.  And when chainJob returns on a Result, what it
returns is not a Continue, and chainJob on that value returns it and the heap
unchanged: chainJob(chainJob(r)) = chainJob(r). -/
theorem chainJob_idempotent :
    (∀ (fuel : Nat) (r : Result U V) (h : Heap σ U V), r.isContinue = false →
      chainJob act fuel r h = .ok (r, h)) ∧
    (∀ (fuel fuel2 : Nat) (r r1 : Result U V) (h h1 : Heap σ U V),
      chainJob act fuel r h = .ok (r1, h1) →
      r1.isContinue = false ∧ chainJob act fuel2 r1 h1 = .ok (r1, h1)) :=
  ⟨fun fuel r h hr => chainJob_final act fuel r h hr,
   fun fuel fuel2 r r1 h h1 hrun =>
    ⟨chainJob_result_final act fuel r h r1 h1 hrun,
     chainJob_final act fuel2 r1 h1 (chainJob_result_final act fuel r h r1 h1 hrun)⟩⟩

theorem chainJob_idempotent_witness :
    (chainJob demoAct 0 (.val 100) (demoHeap 1) = .ok (.val 100, demoHeap 1)) ∧
    (chainJob demoAct 9 (.job (.user 1)) (demoHeap 1)
        = .ok (.val 200, { demoHeap 1 with user := 4 })) ∧
    (Result.val 200 : Result Nat Nat).isContinue = false ∧
    (chainJob demoAct 9 (.val 200) { demoHeap 1 with user := 4 }
        = .ok (.val 200, { demoHeap 1 with user := 4 })) :=
  ⟨(chainJob_idempotent demoAct).1 0 (.val 100) (demoHeap 1) rfl,
   by decide,
   ((chainJob_idempotent demoAct).2 9 9 (.job (.user 1)) (.val 200) (demoHeap 1)
      { demoHeap 1 with user := 4 } (by decide)).1,
   ((chainJob_idempotent demoAct).2 9 9 (.job (.user 1)) (.val 200) (demoHeap 1)
      { demoHeap 1 with user := 4 } (by decide)).2⟩

/-- C5.  Lifecycle misuse is reported and changes nothing.  SpawnN on a pool
that has an inbound or an outbound queue returns one of the two busy errors
and the state it was called in; Wait and Kill on a pool that lacks a queue
return one of the two idle errors (worker free when the inbound queue is nil)
and the state they were called in: no queue is made, nothing is enqueued, no
goroutine is started. -/
theorem lifecycle_misuse_atomic (st : Sys σ U V) (num : Int) :
    ((st.w.i.isSome = true ∨ st.w.o.isSome = true) →
      ((Worker.SpawnN num st).1 = some .busyOnJobs ∨
        (Worker.SpawnN num st).1 = some .busyOnJobResults) ∧
      (Worker.SpawnN num st).2 = st ∧
      (st.caller = .idle →
        step act st (.spawnN num) = .ok (st, .spawnN num (Worker.SpawnN num st).1))) ∧
    ((st.w.i = none ∨ st.w.o = none) →
      (Worker.Wait st = .ok (some .workerFree, st) ∨
        Worker.Wait st = .ok (some .noJobResults, st)) ∧
      Worker.Kill st = Worker.Wait st ∧
      (st.w.i = none → Worker.Wait st = .ok (some .workerFree, st)) ∧
      (st.caller = .idle →
        (step act st .wait = .ok (st, .waitRet (some .workerFree)) ∨
          step act st .wait = .ok (st, .waitRet (some .noJobResults))) ∧
        step act st .kill = step act st .wait)) := by
  constructor
  · intro hrun
    have h2 : (Worker.SpawnN num st).2 = st := by
      unfold Worker.SpawnN
      rcases hrun with h | h
      · simp [h]
      · split
        · rfl
        · simp [h]
    refine ⟨?_, h2, ?_⟩
    · unfold Worker.SpawnN
      rcases hrun with h | h
      · simp [h]
      · split
        · simp
        · simp [h]
    · intro hidle
      simp [step, hidle, CallerPC.isIdle, h2]
  · intro hidle
    have hw : (Worker.Wait st = .ok (some .workerFree, st) ∨
        Worker.Wait st = .ok (some .noJobResults, st)) := by
      unfold Worker.Wait
      rcases hidle with h | h
      · simp [h]
      · split
        · simp
        · simp [h]
    refine ⟨hw, rfl, ?_, ?_⟩
    · intro h
      unfold Worker.Wait
      simp [h]
    · intro hc
      constructor
      · rcases hw with h | h
        · left; simp [step, hc, CallerPC.isIdle, h]
        · right; simp [step, hc, CallerPC.isIdle, h]
      · simp [step, Worker.Kill]

/-- C6, as amended.  Of two calls SpawnN(n), SpawnN(m) with no Wait between
them, the second always returns a busy error and changes nothing; the first
returns nil exactly when the pool was idle, and when it returns an error it
changes nothing. -/
theorem spawn_twice (st : Sys σ U V) (n m : Int) :
    ((Worker.SpawnN m (Worker.SpawnN n st).2).1 = some .busyOnJobs ∨
      (Worker.SpawnN m (Worker.SpawnN n st).2).1 = some .busyOnJobResults) ∧
    (Worker.SpawnN m (Worker.SpawnN n st).2).2 = (Worker.SpawnN n st).2 ∧
    ((Worker.SpawnN n st).1 = none ↔ (st.w.i = none ∧ st.w.o = none)) ∧
    ((Worker.SpawnN n st).1 ≠ none → (Worker.SpawnN n st).2 = st) := by
  cases hi : st.w.i with
  | some c => simp [Worker.SpawnN, hi]
  | none =>
    cases ho : st.w.o with
    | some c => simp [Worker.SpawnN, hi, ho]
    | none => simp [Worker.SpawnN, hi, ho]

/-- C6, the claim as stated fails: on a fresh worker the first SpawnN(4)
returns nil, only the second returns a busy error. -/
theorem spawn_twice_first_succeeds :
    (Worker.SpawnN 4 (New 0 : Sys Nat Nat Nat)).1 = none ∧
    (Worker.SpawnN 4 (Worker.SpawnN 4 (New 0 : Sys Nat Nat Nat)).2).1 = some .busyOnJobs ∧
    ¬ ∀ (st : Sys Nat Nat Nat) (n m : Int),
        (Worker.SpawnN n st).1 ≠ none ∧ (Worker.SpawnN m (Worker.SpawnN n st).2).1 ≠ none := by
  refine ⟨by decide, by decide, ?_⟩
  intro h
  exact (h (New 0) 4 4).1 (by decide)

/-- C7.  Submit is fire and forget.  On an idle pool Do returns at once, with
no error value, and the state is the one it was called in.  On a running pool
whose inbound queue is open and empty, Do puts exactly the job in the buffer
of that queue, returns, and changes nothing else; and whenever the send of a
pending Do completes, the queue was open and empty and the only change is
that the job is in its buffer and the caller is between calls. -/
theorem submit_fire_and_forget (st : Sys σ U V) (m : Option (Job U V)) :
    (st.w.i = none → Worker.Do m st = st) ∧
    (∀ (u : Option U), st.w.i = none → st.caller = .idle →
      step act st (.submit u) = .ok (st, .tau)) ∧
    (∀ (c : Nat) (ch : Chan (Option (Job U V))), st.w.i = some c →
      st.ichans[c]? = some ch → ch.closed = false → ch.buf = [] →
      callerStep (Worker.Do m st)
        = .ok ({ st with ichans := st.ichans.set c { ch with buf := [m] }, caller := .idle },
            .tau)) ∧
    (∀ (c : Nat) (st2 : Sys σ U V) (o : Obs U V), st.caller = .doSend c m →
      callerStep st = .ok (st2, o) →
      ∃ ch, st.ichans[c]? = some ch ∧ ch.buf = [] ∧ ch.closed = false ∧ o = .tau ∧
        st2 = { st with ichans := st.ichans.set c { ch with buf := [m] }, caller := .idle }) := by
  refine ⟨?_, ?_, ?_, ?_⟩
  · intro h
    simp [Worker.Do, h]
  · intro u h hc
    simp [step, hc, CallerPC.isIdle, Worker.Do, h]
  · intro c ch hi hch hopen hbuf
    simp [Worker.Do, hi, callerStep, sendOn, hch, Chan.send, hopen, hbuf, Chan.cap]
  · intro c st2 o hc hstep
    unfold callerStep at hstep
    rw [hc] at hstep
    simp only [sendOn] at hstep
    cases hch : st.ichans[c]? with
    | none => simp [hch] at hstep
    | some ch =>
      simp only [hch, Chan.send, Chan.cap] at hstep
      by_cases hcl : ch.closed = true
      · simp [hcl] at hstep
      · simp only [hcl] at hstep
        by_cases hlen : ch.buf.length < 1
        · have hb : ch.buf = [] := List.length_eq_zero.mp (by omega)
          simp [hlen] at hstep
          refine ⟨ch, rfl, hb, by simpa using hcl, hstep.2.symm, ?_⟩
          have hcl2 : ch.closed = false := by simpa using hcl
          rw [← hstep.1, hb, hcl2]
          rfl
        · simp [hlen] at hstep

end Claims1

/-! ## Sums over lists and channels -/

section Lists
variable {α : Type}

theorem sumBy_nil (f : α → Nat) : sumBy f [] = 0 := rfl

theorem sumBy_cons (f : α → Nat) (x : α) (l : List α) : sumBy f (x :: l) = f x + sumBy f l := by
  simp [sumBy]

theorem sumBy_append (f : α → Nat) (l1 l2 : List α) :
    sumBy f (l1 ++ l2) = sumBy f l1 + sumBy f l2 := by
  simp [sumBy]

theorem sumBy_replicate (f : α → Nat) (n : Nat) (x : α) :
    sumBy f (List.replicate n x) = n * f x := by
  induction n with
  | zero => simp [sumBy]
  | succ k ih => simp [List.replicate_succ, sumBy_cons, ih]; ring

theorem sumBy_set (f : α → Nat) :
    ∀ (l : List α) (k : Nat) (x y : α), l[k]? = some x →
      sumBy f (l.set k y) + f x = sumBy f l + f y := by
  intro l
  induction l with
  | nil => intro k x y h; simp at h
  | cons a t ih =>
    intro k x y h
    cases k with
    | zero =>
      simp at h
      subst h
      simp [sumBy_cons]; omega
    | succ n =>
      simp at h
      have := ih n x y h
      simp [sumBy_cons]; omega

theorem set_same (l : List α) (k : Nat) (x : α) (h : l[k]? = some x) : l.set k x = l := by
  induction l generalizing k with
  | nil => simp
  | cons a t ih =>
    cases k with
    | zero => simp at h; simp [h]
    | succ n => simp at h; simp [ih n h]

theorem chanSum_sendOn (f : α → Nat) {chans chans1 : List (Chan α)} {c : Option Nat} {x : α}
    (h : sendOn chans c x = .ok chans1) : chanSum f chans1 = chanSum f chans + f x := by
  unfold sendOn at h
  split at h
  · cases h
  · rename_i id
    split at h
    · cases h
    · rename_i ch hch
      split at h
      · rename_i ch1 hs
        cases h
        unfold Chan.send at hs
        split at hs
        · cases hs
        · split at hs
          · cases hs
            have := sumBy_set (fun ch => sumBy f ch.buf) chans id ch
              { ch with buf := ch.buf ++ [x] } hch
            simp only [sumBy_append, sumBy_cons, sumBy_nil] at this
            unfold chanSum
            omega
          · cases hs
      · cases h
      · cases h

theorem chanSum_recvOn (f : α → Nat) {chans chans1 : List (Chan α)} {c : Option Nat} {x : α}
    (h : recvOn chans c = .ok (some x, chans1)) : chanSum f chans1 + f x = chanSum f chans := by
  unfold recvOn at h
  split at h
  · cases h
  · rename_i id
    split at h
    · cases h
    · rename_i ch hch
      split at h
      · rename_i y ch1 hs
        cases h
        unfold Chan.recv at hs
        split at hs
        · rename_i z rest hb
          cases hs
          have := sumBy_set (fun ch => sumBy f ch.buf) chans id ch { ch with buf := rest } hch
          simp only [hb, sumBy_cons] at this
          unfold chanSum
          omega
        · split at hs
          · cases hs
          · cases hs
      · cases h
      · cases h

theorem recvOn_closed {chans chans1 : List (Chan α)} {c : Option Nat}
    (h : recvOn chans c = .ok (none, chans1)) : chans1 = chans := by
  unfold recvOn at h
  split at h
  · cases h
  · rename_i id
    split at h
    · cases h
    · rename_i ch hch
      split at h
      · rename_i y ch1 hs
        cases h
        unfold Chan.recv at hs
        split at hs
        · cases hs
        · split at hs
          · cases hs
            exact set_same chans id ch hch
          · cases hs
      · cases h
      · cases h

theorem chanSum_closeOn (f : α → Nat) {chans chans1 : List (Chan α)} {c : Option Nat}
    (h : closeOn chans c = .ok chans1) : chanSum f chans1 = chanSum f chans := by
  unfold closeOn at h
  split at h
  · cases h
  · rename_i id
    split at h
    · cases h
    · rename_i ch hch
      split at h
      · rename_i ch1 hs
        cases h
        unfold Chan.close at hs
        split at hs
        · cases hs
        · cases hs
          have := sumBy_set (fun ch => sumBy f ch.buf) chans id ch { ch with closed := true } hch
          simp only at this
          unfold chanSum
          omega
      · cases h

theorem chanSum_append_make (f : α → Nat) (chans : List (Chan α)) :
    chanSum f (chans ++ [Chan.make]) = chanSum f chans := by
  simp [chanSum, sumBy_append, sumBy_cons, sumBy_nil, Chan.make]

end Lists

section Lifecycle

variable {σ U V : Type} (act : U → σ → UResult U V × σ)

theorem running_snoc (hist : List (Obs U V)) (o : Obs U V) :
    running (hist ++ [o]) = Obs.lifecycle (running hist) o := by
  simp [running, List.foldl_append]

/-- C8.  In every state reachable from a fresh worker by any sequence of
calls and goroutine steps, the inbound queue is non-nil exactly when the
outbound queue is, and exactly when the pool is running: the history has a
SpawnN that returned nil and no Wait or Kill that returned nil since. -/
theorem pool_lifecycle_invariant {st : Sys σ U V} {hist : List (Obs U V)}
    (h : Reach act st hist) :
    (st.w.i.isSome = st.w.o.isSome) ∧ st.w.i.isSome = running hist := by
  induction h with
  | init st0 => simp [New, running]
  | next hr hstep ih =>
    have htr := step_trans act hstep
    clear hstep hr
    rw [running_snoc]
    obtain ⟨ih1, ih2⟩ := ih
    cases htr <;> first
      | exact ⟨ih1, ih2⟩
      | simp [Obs.lifecycle]

end Lifecycle

/-! ## The invariant of the shutdown handshake -/

section RoundInv

variable {σ U V : Type} (act : U → σ → UResult U V × σ)

theorem stopTok_stopWaiter (g : Nat) (j : Job U V) :
    swTok g (stopWaiter j) = stopTok g (some j) := by
  cases j <;> simp [stopWaiter, swTok, stopTok]

theorem swNone_stopWaiter (j : Job U V) (g : Nat) :
    stopTok g (some j) ≤ 1 - swNone (stopWaiter j) ∧ swNone (stopWaiter j) ≤ 1 := by
  cases j <;> simp [stopWaiter, swNone, stopTok]
  split <;> omega

theorem swNone_eq_one_of_not_stop (j : Job U V) (h : ∀ g, stopTok g (some j) = 0) :
    swNone (stopWaiter j) = 1 := by
  cases j <;> simp [stopWaiter, swNone]
  rename_i w
  have := h w
  simp [stopTok] at this

theorem ShutdownInv.exec_local {st st1 : Sys σ U V} (inv : ShutdownInv st) (k : Nat)
    (p p1 : ExecPC U V) (hk : st.execs[k]? = some p)
    (hh : ∀ g, ExecPC.holds g p1 = ExecPC.holds g p) (hl : ExecPC.inLoop p1 ≤ ExecPC.inLoop p)
    (hw : st1.w = st.w) (hi : st1.ichans = st.ichans) (hg : st1.wgs = st.wgs)
    (he : st1.execs = st.execs.set k p1) (hc : st1.chasers = st.chasers)
    (hcl : st1.caller = st.caller) : ShutdownInv st1 := by
  obtain ⟨hB, hZ, hL⟩ := inv
  have e2 := sumBy_set ExecPC.inLoop st.execs k p p1 hk
  refine ⟨?_, ?_, ?_⟩
  · intro g
    have e1 := sumBy_set (ExecPC.holds g) st.execs k p p1 hk
    have := hB g
    have := hh g
    simp only [Sys.barrier, Sys.stopTokens, Sys.holders, Sys.carriers, hw, hi, hg, he, hc, hcl]
      at *
    omega
  · intro g hne
    have := hZ g (by rw [← hcl]; exact hne)
    simp only [Sys.barrier, hg] at *
    exact this
  · have hexp : st1.expected = st.expected := by
      simp only [Sys.expected, Sys.stopTokens, hw, hi, hcl]
    simp only [Sys.loopers, he, hexp] at *
    omega

theorem ShutdownInv.chase_local {st st1 : Sys σ U V} (inv : ShutdownInv st) (k : Nat)
    (p p1 : ChasePC U V) (hk : st.chasers[k]? = some p)
    (hh : ∀ g, ChasePC.carries g p1 = ChasePC.carries g p)
    (hw : st1.w = st.w) (hi : st1.ichans = st.ichans) (hg : st1.wgs = st.wgs)
    (he : st1.execs = st.execs) (hc : st1.chasers = st.chasers.set k p1)
    (hcl : st1.caller = st.caller) : ShutdownInv st1 := by
  obtain ⟨hB, hZ, hL⟩ := inv
  refine ⟨?_, ?_, ?_⟩
  · intro g
    have e1 := sumBy_set (ChasePC.carries g) st.chasers k p p1 hk
    have := hB g
    have := hh g
    simp only [Sys.barrier, Sys.stopTokens, Sys.holders, Sys.carriers, hw, hi, hg, he, hc, hcl]
      at *
    omega
  · intro g hne
    have := hZ g (by rw [← hcl]; exact hne)
    simp only [Sys.barrier, hg] at *
    exact this
  · have hexp : st1.expected = st.expected := by
      simp only [Sys.expected, Sys.stopTokens, hw, hi, hcl]
    simp only [Sys.loopers, he, hexp] at *
    omega

/-- A change of the caller between states that are outside a round and send
no stop token, and of fields the invariant does not read. -/
theorem ShutdownInv.caller_local {st st1 : Sys σ U V} (inv : ShutdownInv st)
    (hw : st1.w = st.w) (hi : st1.ichans = st.ichans) (hg : st1.wgs = st.wgs)
    (he : st1.execs = st.execs) (hc : st1.chasers = st.chasers)
    (hs : ∀ g, st1.caller.sending g = st.caller.sending g)
    (ht : ∀ g, st1.caller.toSend st.w.routines g = st.caller.toSend st.w.routines g)
    (hr : st1.caller.round = st.caller.round)
    (hx : st1.expected = st.expected) : ShutdownInv st1 := by
  obtain ⟨hB, hZ, hL⟩ := inv
  refine ⟨?_, ?_, ?_⟩
  · intro g
    have := hB g
    have := hs g
    have := ht g
    simp only [Sys.barrier, Sys.stopTokens, Sys.holders, Sys.carriers, hw, hi, hg, he, hc] at *
    omega
  · intro g hne
    have := hZ g (by rw [← hr]; exact hne)
    simp only [Sys.barrier, hg] at *
    exact this
  · simp only [Sys.loopers, he, hx] at *
    omega

theorem shutdownInv_init (st0 : σ) : ShutdownInv (New st0 : Sys σ U V) := by
  refine ⟨?_, ?_, ?_⟩
  · intro g
    simp [New, Sys.barrier, Sys.stopTokens, Sys.holders, Sys.carriers, CallerPC.toSend,
      CallerPC.sending, chanSum, sumBy]
  · intro g _
    simp [New, Sys.barrier]
  · simp [New, Sys.loopers, sumBy]

theorem shutdownInv_step {st st1 : Sys σ U V} {o : Obs U V} (inv : ShutdownInv st)
    (htr : Trans act st o st1) : ShutdownInv st1 := by
  cases htr with
  | spawnBusy => exact inv
  | waitErr => exact inv
  | doDrop => exact inv
  | sentryNil => exact inv
  | execStart k hk =>
    exact inv.exec_local k _ _ hk (by intro g; rfl) (by exact le_refl _) rfl rfl rfl rfl rfl rfl
  | execRet k ci r sw hk =>
    exact inv.exec_local k _ _ hk (by intro g; rfl) (by exact le_refl _) rfl rfl rfl rfl rfl rfl
  | execAct k ci a a1 sw h1 hk hs =>
    exact inv.exec_local k _ _ hk (by intro g; rfl) (by exact le_refl _) rfl rfl rfl rfl rfl rfl
  | execSend k ci co r sw chans hk hs =>
    exact inv.exec_local k _ _ hk (by intro g; rfl) (by exact le_refl _) rfl rfl rfl rfl rfl rfl
  | execRecvNil k ci chans hk hr =>
    obtain ⟨hB, hZ, hL⟩ := inv
    have hsum : ∀ g, chanSum (stopTok g) chans = chanSum (stopTok g) st.ichans := by
      intro g
      have := chanSum_recvOn (stopTok g) hr
      simpa [stopTok] using this
    refine ⟨?_, ?_, ?_⟩
    · intro g
      have := hB g
      simp only [Sys.barrier, Sys.stopTokens, Sys.holders, Sys.carriers, hsum] at *
      exact this
    · intro g hne
      exact hZ g hne
    · simp only [Sys.loopers, Sys.expected, Sys.stopTokens, hsum] at *
      exact hL
  | execRecvClosed k ci chans hk hr =>
    have := recvOn_closed hr
    subst this
    exact inv.exec_local k _ _ hk (by intro g; rfl) (by simp [ExecPC.inLoop])
      rfl rfl rfl rfl rfl rfl
  | chaseStart k wg hk => exact inv.chase_local k _ _ hk (by intro g; rfl) rfl rfl rfl rfl rfl rfl
  | chaseRecv k co wg r chans hk hr =>
    exact inv.chase_local k _ _ hk (by intro g; rfl) rfl rfl rfl rfl rfl rfl
  | chaseRecvClosed k co wg chans hk hr =>
    exact inv.chase_local k _ _ hk (by intro g; rfl) rfl rfl rfl rfl rfl rfl
  | chaseCall k j wg hk => exact inv.chase_local k _ _ hk (by intro g; rfl) rfl rfl rfl rfl rfl rfl
  | chaseFinal k r wg hk hf =>
    exact inv.chase_local k _ _ hk (by intro g; rfl) rfl rfl rfl rfl rfl rfl
  | chaseRet k r wg hk => exact inv.chase_local k _ _ hk (by intro g; rfl) rfl rfl rfl rfl rfl rfl
  | chaseAct k a a1 wg h1 hk hs =>
    exact inv.chase_local k _ _ hk (by intro g; rfl) rfl rfl rfl rfl rfl rfl
  | chaseExit k hk =>
    exact inv.chase_local k _ _ hk (by intro g; rfl) rfl rfl rfl rfl rfl rfl
  | sentryOk hidle h1 h2 =>
    exact inv.caller_local rfl rfl rfl rfl rfl (by intro g; rfl) (by intro g; rfl) rfl rfl
  | guardDrop s sen hidle hs hc hi =>
    exact inv.caller_local rfl rfl rfl rfl rfl (by intro g; rfl) (by intro g; rfl) rfl rfl
  | doEnter c m hidle hi =>
    refine inv.caller_local rfl rfl rfl rfl rfl ?_ ?_ ?_ ?_
    · intro g
      cases m <;> simp [CallerPC.sending, hidle, stopTok]
    · intro g
      simp [CallerPC.toSend, hidle]
    · simp [CallerPC.round, hidle]
    · simp [Sys.expected, hidle]
  | guardEnter s sen m c hidle hs hc hi =>
    refine inv.caller_local rfl rfl rfl rfl rfl ?_ ?_ ?_ ?_
    · intro g
      simp [CallerPC.sending, hidle, stopTok]
    · intro g
      simp [CallerPC.toSend, hidle]
    · simp [CallerPC.round, hidle]
    · simp [Sys.expected, hidle]
  | sentryWaitEnter s hidle =>
    refine inv.caller_local rfl rfl rfl rfl rfl ?_ ?_ ?_ ?_
    · intro g
      simp [CallerPC.sending, hidle]
    · intro g
      simp [CallerPC.toSend, hidle]
    · simp [CallerPC.round, hidle]
    · simp [Sys.expected, hidle]
  | sentryWaitRet s sen hc hs hz =>
    refine inv.caller_local rfl rfl rfl rfl rfl ?_ ?_ ?_ ?_
    · intro g
      simp [CallerPC.sending, hc]
    · intro g
      simp [CallerPC.toSend, hc]
    · simp [CallerPC.round, hc]
    · simp [Sys.expected, hc]
  | waitCloseO chans hc hcl =>
    refine inv.caller_local rfl rfl rfl rfl rfl ?_ ?_ ?_ ?_
    · intro g
      simp [CallerPC.sending, hc]
    · intro g
      simp [CallerPC.toSend, hc]
    · simp [CallerPC.round, hc]
    · simp [Sys.expected, hc]
  | waitSent c i hc hlt =>
    obtain ⟨hB, hZ, hL⟩ := inv
    refine ⟨?_, ?_, ?_⟩
    · intro g
      have := hB g
      simp only [Sys.barrier, Sys.stopTokens, Sys.holders, Sys.carriers, CallerPC.toSend,
        CallerPC.sending, hc] at *
      split at this <;> omega
    · intro g hne
      exact hZ g (by simpa [CallerPC.round, hc] using hne)
    · simp only [Sys.loopers, Sys.expected, Sys.stopTokens, CallerPC.sending, hc] at *
      omega
  | waitZero c hc hz =>
    obtain ⟨hB, hZ, hL⟩ := inv
    have hBc := hB c
    refine ⟨?_, ?_, ?_⟩
    · intro g
      have := hB g
      simp only [Sys.barrier, Sys.stopTokens, Sys.holders, Sys.carriers, CallerPC.toSend,
        CallerPC.sending, hc] at *
      omega
    · intro g _
      by_cases hg : g = c
      · subst hg
        simp [Sys.barrier, hz]
      · exact hZ g (by simpa [CallerPC.round, hc] using fun h => hg h.symm)
    · simp only [Sys.loopers, Sys.expected, Sys.stopTokens, Sys.barrier, CallerPC.sending,
        CallerPC.toSend, hc, hz] at *
      simp at hBc
      omega
  | waitCloseI chans hc hcl =>
    obtain ⟨hB, hZ, hL⟩ := inv
    refine ⟨?_, ?_, ?_⟩
    · intro g
      have := hB g
      have := chanSum_closeOn (stopTok g) hcl
      simp only [Sys.barrier, Sys.stopTokens, Sys.holders, Sys.carriers, CallerPC.toSend,
        CallerPC.sending, hc] at *
      omega
    · intro g hne
      exact hZ g (by simp [CallerPC.round, hc])
    · simp only [Sys.loopers, Sys.expected, hc] at *
      omega
  | waitReset hc =>
    obtain ⟨hB, hZ, hL⟩ := inv
    refine ⟨?_, ?_, ?_⟩
    · intro g
      have := hB g
      simp only [Sys.barrier, Sys.stopTokens, Sys.holders, Sys.carriers, CallerPC.toSend,
        CallerPC.sending, hc] at *
      omega
    · intro g hne
      exact hZ g (by simp [CallerPC.round, hc])
    · simp only [Sys.loopers, Sys.expected, hc] at *
      simp
      omega
  | spawnOk num hidle hi ho =>
    obtain ⟨hB, hZ, hL⟩ := inv
    refine ⟨?_, ?_, ?_⟩
    · intro g
      have := hB g
      simp only [Sys.barrier, Sys.stopTokens, Sys.holders, Sys.carriers, CallerPC.toSend,
        CallerPC.sending, hidle, chanSum_append_make, sumBy_append, sumBy_replicate,
        ExecPC.holds] at *
      omega
    · intro g hne
      exact hZ g hne
    · simp only [Sys.loopers, Sys.expected, hidle, hi, sumBy_append, sumBy_replicate,
        ExecPC.inLoop] at *
      simp at hL ⊢
      omega
  | waitEnter hidle hi ho hr =>
    obtain ⟨hB, hZ, hL⟩ := inv
    refine ⟨?_, ?_, ?_⟩
    · intro g
      have h1 := hB g
      have h2 := hZ g (by simp [CallerPC.round, hidle])
      simp only [Sys.barrier, Sys.stopTokens, Sys.holders, Sys.carriers, CallerPC.toSend,
        CallerPC.sending, hidle] at *
      by_cases hg : st.wgs.length = g
      · subst hg
        simp
        simp at h1
        omega
      · simp only [hg, if_false]
        rcases Nat.lt_or_gt_of_ne hg with h | h
        · rw [List.getElem?_eq_none (by simp; omega)]
          rw [List.getElem?_eq_none (by omega)] at h1
          simpa using h1
        · rw [List.getElem?_append_left h]
          simpa using h1
    · intro g hne
      have h2 := hZ g (by simp [CallerPC.round, hidle])
      have hg : st.wgs.length ≠ g := by simpa [CallerPC.round] using hne
      simp only [Sys.barrier] at *
      rcases Nat.lt_or_gt_of_ne hg with h | h
      · rw [List.getElem?_eq_none (by simp; omega)]
        rfl
      · rw [List.getElem?_append_left h]
        exact h2
    · simp only [Sys.loopers, Sys.expected, hidle, hi] at *
      simp at hL ⊢
      omega
  | doSend c m chans hc hs =>
    obtain ⟨hB, hZ, hL⟩ := inv
    refine ⟨?_, ?_, ?_⟩
    · intro g
      have := hB g
      have := chanSum_sendOn (stopTok g) hs
      simp only [Sys.barrier, Sys.stopTokens, Sys.holders, Sys.carriers, CallerPC.toSend,
        CallerPC.sending, hc] at *
      omega
    · intro g hne
      exact hZ g (by simp [CallerPC.round, hc])
    · simp only [Sys.loopers, Sys.expected, hc] at *
      exact hL
  | waitSend c i chans hc hlt hs =>
    obtain ⟨hB, hZ, hL⟩ := inv
    have hcc := chanSum_sendOn (stopTok c) hs
    refine ⟨?_, ?_, ?_⟩
    · intro g
      have := hB g
      have := chanSum_sendOn (stopTok g) hs
      simp only [Sys.barrier, Sys.stopTokens, Sys.holders, Sys.carriers, CallerPC.toSend,
        CallerPC.sending, hc, stopTok] at *
      by_cases hg : c = g
      · simp only [hg, if_true] at *
        push_cast
        omega
      · simp only [hg, if_false] at *
        omega
    · intro g hne
      exact hZ g (by simpa [CallerPC.round, hc] using hne)
    · simp only [Sys.loopers, Sys.expected, Sys.stopTokens, CallerPC.sending, hc, stopTok,
        if_true] at *
      push_cast
      omega
  | execSpawn k ci sw hk =>
    obtain ⟨hB, hZ, hL⟩ := inv
    have hexp : ∀ (x : List (ExecPC U V)) (y : List (ChasePC U V)),
        ({ st with chasers := y, execs := x } : Sys σ U V).expected = st.expected := by
      intro x y
      simp only [Sys.expected, Sys.stopTokens]
    cases sw with
    | none =>
      have e2 := sumBy_set ExecPC.inLoop st.execs k _ (ExecPC.recv ci) hk
      refine ⟨?_, ?_, ?_⟩
      · intro g
        have := hB g
        have e1 := sumBy_set (ExecPC.holds g) st.execs k _ (ExecPC.recv ci) hk
        simp only [Sys.barrier, Sys.stopTokens, Sys.holders, Sys.carriers, sumBy_append,
          sumBy_cons, sumBy_nil, ChasePC.carries, ExecPC.holds, swTok, Option.isSome_none,
          Bool.false_eq_true, if_false] at *
        omega
      · intro g hne
        exact hZ g hne
      · simp only [Sys.loopers, hexp, ExecPC.inLoop, swNone, Option.isSome_none,
          Bool.false_eq_true, if_false] at *
        omega
    | some w =>
      have e2 := sumBy_set ExecPC.inLoop st.execs k _ ExecPC.exited hk
      refine ⟨?_, ?_, ?_⟩
      · intro g
        have := hB g
        have e1 := sumBy_set (ExecPC.holds g) st.execs k _ ExecPC.exited hk
        simp only [Sys.barrier, Sys.stopTokens, Sys.holders, Sys.carriers, sumBy_append,
          sumBy_cons, sumBy_nil, ChasePC.carries, ExecPC.holds, swTok, Option.isSome_some,
          if_true] at *
        omega
      · intro g hne
        exact hZ g hne
      · simp only [Sys.loopers, hexp, ExecPC.inLoop, swNone, Option.isSome_some,
          if_true] at *
        omega
  | chaseDone k g1 c hk hg hc =>
    obtain ⟨hB, hZ, hL⟩ := inv
    have hB1 := hB g1
    have hlt : g1 < st.wgs.length := by
      rcases List.getElem?_eq_some.mp hg with ⟨h, _⟩
      exact h
    refine ⟨?_, ?_, ?_⟩
    · intro g
      have := hB g
      have e1 := sumBy_set (ChasePC.carries g) st.chasers k _ ChasePC.exited hk
      simp only [Sys.barrier, Sys.stopTokens, Sys.holders, Sys.carriers, ChasePC.carries,
        swTok] at *
      by_cases hgg : g1 = g
      · subst hgg
        simp only [if_true, hg, Option.getD_some] at *
        rw [List.getElem?_set_self hlt]
        simp only [Option.getD_some]
        omega
      · rw [List.getElem?_set_ne hgg]
        simp only [hgg, if_false] at e1
        omega
    · intro g hne
      have := hZ g hne
      have e1 := sumBy_set (ChasePC.carries g) st.chasers k _ ChasePC.exited hk
      have hBg := hB g
      simp only [Sys.barrier, Sys.stopTokens, Sys.holders, Sys.carriers, ChasePC.carries,
        swTok] at *
      by_cases hgg : g1 = g
      · subst hgg
        simp only [if_true, hg, Option.getD_some] at *
        omega
      · rw [List.getElem?_set_ne hgg]
        exact this
    · exact hL
  | execRecv k ci j chans hk hr =>
    obtain ⟨hB, hZ, hL⟩ := inv
    have e2 := sumBy_set ExecPC.inLoop st.execs k _
      (ExecPC.run ci (ActPC.call j) (stopWaiter j)) hk
    have hsum : ∀ g, chanSum (stopTok g) chans + stopTok g (some j)
        = chanSum (stopTok g) st.ichans := fun g => chanSum_recvOn (stopTok g) hr
    have hBn : ∀ g, ((Sys.barrier
        { st with ichans := chans
                  execs := st.execs.set k (ExecPC.run ci (ActPC.call j) (stopWaiter j)) } g)
        = Sys.barrier st g) := fun g => rfl
    refine ⟨?_, ?_, ?_⟩
    · intro g
      have := hB g
      have e1 := sumBy_set (ExecPC.holds g) st.execs k _
        (ExecPC.run ci (ActPC.call j) (stopWaiter j)) hk
      have := hsum g
      simp only [Sys.barrier, Sys.stopTokens, Sys.holders, Sys.carriers, ExecPC.holds,
        stopTok_stopWaiter] at *
      omega
    · intro g hne
      exact hZ g hne
    · cases j with
      | stop g1 =>
        have hs1 := hsum g1
        have hB1 := hB g1
        simp only [stopTok, if_true] at hs1
        simp only [stopWaiter, ExecPC.inLoop, swNone] at e2
        by_cases hr : st.caller.round = some g1
        · cases hc : st.caller with
          | waitLoop c i =>
            simp only [hc, CallerPC.round, Option.some.injEq] at hr
            subst hr
            simp only [Sys.loopers, Sys.expected, Sys.stopTokens, hc, stopWaiter] at hL e2 ⊢
            omega
          | waitBarrier c =>
            simp only [hc, CallerPC.round, Option.some.injEq] at hr
            subst hr
            simp only [Sys.loopers, Sys.expected, Sys.stopTokens, hc, stopWaiter] at hL e2 ⊢
            omega
          | idle => simp [hc, CallerPC.round] at hr
          | doSend c m => simp [hc, CallerPC.round] at hr
          | waitCloseI => simp [hc, CallerPC.round] at hr
          | waitCloseO => simp [hc, CallerPC.round] at hr
          | waitReset => simp [hc, CallerPC.round] at hr
          | sentryWait s => simp [hc, CallerPC.round] at hr
        · have hz := hZ g1 hr
          simp only [Sys.barrier, Sys.stopTokens] at hB1 hz
          omega
      | user u =>
        have hsum2 : ∀ g, chanSum (stopTok g) chans = chanSum (stopTok g) st.ichans := by
          intro g
          simpa [stopTok] using hsum g
        simp only [stopWaiter, ExecPC.inLoop, swNone] at e2
        simp only [Sys.loopers, Sys.expected, Sys.stopTokens, hsum2, stopWaiter] at hL e2 ⊢
        omega
      | guard s m =>
        have hsum2 : ∀ g, chanSum (stopTok g) chans = chanSum (stopTok g) st.ichans := by
          intro g
          simpa [stopTok] using hsum g
        simp only [stopWaiter, ExecPC.inLoop, swNone] at e2
        simp only [Sys.loopers, Sys.expected, Sys.stopTokens, hsum2, stopWaiter] at hL e2 ⊢
        omega
      | unguard s r =>
        have hsum2 : ∀ g, chanSum (stopTok g) chans = chanSum (stopTok g) st.ichans := by
          intro g
          simpa [stopTok] using hsum g
        simp only [stopWaiter, ExecPC.inLoop, swNone] at e2
        simp only [Sys.loopers, Sys.expected, Sys.stopTokens, hsum2, stopWaiter] at hL e2 ⊢
        omega

end RoundInv

/-! ## The invariant of a sentry -/

section GuardInvariant

variable {σ U V : Type} (act : U → σ → UResult U V × σ)

theorem Heap.waiter_set (h : Heap σ U V) (s1 s : Nat) (sen sen1 : Sentry U V) (x : σ)
    (hs : h.sentries[s1]? = some sen) :
    Heap.waiter { user := x, sentries := h.sentries.set s1 sen1 } s
      = if s1 = s then sen1.waiter else h.waiter s := by
  have hlt : s1 < h.sentries.length := by
    rcases List.getElem?_eq_some.mp hs with ⟨h1, _⟩
    exact h1
  unfold Heap.waiter
  by_cases hss : s1 = s
  · subst hss
    simp [List.getElem?_set_self hlt]
  · simp [List.getElem?_set_ne hss, hss]

theorem Heap.recorded_set (h : Heap σ U V) (s1 s : Nat) (sen sen1 : Sentry U V) (x : σ)
    (hs : h.sentries[s1]? = some sen) :
    Heap.recorded { user := x, sentries := h.sentries.set s1 sen1 } s
      = if s1 = s then sen1.results.length else h.recorded s := by
  have hlt : s1 < h.sentries.length := by
    rcases List.getElem?_eq_some.mp hs with ⟨h1, _⟩
    exact h1
  unfold Heap.recorded
  by_cases hss : s1 = s
  · subst hss
    simp [List.getElem?_set_self hlt]
  · simp [List.getElem?_set_ne hss, hss]

theorem UResult.toResult_owes (r : UResult U V) (s : Nat) : r.toResult.owes s = 0 := by
  cases r <;> simp [UResult.toResult, Result.owes, Job.owes]

theorem ActPC.step_count {a a1 : ActPC U V} {h h1 : Heap σ U V}
    (hs : ActPC.step act a h = .ok (a1, h1)) (s : Nat) :
    (h1.waiter s + (h1.recorded s : Int) + (a.closing s : Int)
        = h.waiter s + (h.recorded s : Int) + (a1.closing s : Int)) ∧
    (h.waiter s - h1.waiter s + ((a1.owes s + a1.closing s : Nat) : Int)
        = ((a.owes s + a.closing s : Nat) : Int)) := by
  cases a with
  | call j =>
    cases j with
    | user u =>
      simp only [ActPC.step, Outcome.ok.injEq, Prod.mk.injEq] at hs
      obtain ⟨rfl, rfl⟩ := hs
      simp [ActPC.owes, ActPC.closing, UResult.toResult_owes, Job.owes, Heap.waiter,
        Heap.recorded]
    | guard s1 m =>
      cases m with
      | none => simp [ActPC.step] at hs
      | some u =>
        simp only [ActPC.step, Outcome.ok.injEq, Prod.mk.injEq] at hs
        obtain ⟨rfl, rfl⟩ := hs
        simp [ActPC.owes, ActPC.closing, Result.owes, Job.owes, Heap.waiter, Heap.recorded]
    | unguard s1 r =>
      simp only [ActPC.step, Outcome.ok.injEq, Prod.mk.injEq] at hs
      obtain ⟨rfl, rfl⟩ := hs
      simp [ActPC.owes, ActPC.closing, Job.owes]
    | stop g =>
      simp only [ActPC.step, Outcome.ok.injEq, Prod.mk.injEq] at hs
      obtain ⟨rfl, rfl⟩ := hs
      simp [ActPC.owes, ActPC.closing, Result.owes, Job.owes]
  | inner s1 r =>
    have happ : ∀ (r : UResult U V), r.isFinal = true →
        ActPC.step act (.inner s1 r) h = .ok (a1, h1) →
        (h1.waiter s + (h1.recorded s : Int) + ((ActPC.inner s1 r).closing s : Int)
            = h.waiter s + (h.recorded s : Int) + (a1.closing s : Int)) ∧
        (h.waiter s - h1.waiter s + ((a1.owes s + a1.closing s : Nat) : Int)
            = (((ActPC.inner s1 r).owes s + (ActPC.inner s1 r).closing s : Nat) : Int)) := by
      intro r hr hs
      have hstep : ActPC.step act (.inner s1 r) h =
          match h.sentries[s1]? with
          | none => .panic
          | some sen =>
            .ok (.done s1 r,
              ⟨h.user, h.sentries.set s1 ⟨sen.results ++ [r.toResult], sen.waiter⟩⟩) := by
        cases r with
        | nil => rfl
        | val v => rfl
        | cont u => simp [UResult.isFinal] at hr
      rw [hstep] at hs
      cases hsen : h.sentries[s1]? with
      | none => simp [hsen] at hs
      | some sen =>
        simp only [hsen, Outcome.ok.injEq, Prod.mk.injEq] at hs
        obtain ⟨rfl, rfl⟩ := hs
        rw [Heap.waiter_set h s1 s sen _ _ hsen, Heap.recorded_set h s1 s sen _ _ hsen]
        by_cases hss : s1 = s
        · subst hss
          simp [ActPC.owes, ActPC.closing, Heap.waiter, Heap.recorded, hsen]
          omega
        · simp [ActPC.owes, ActPC.closing, hss]
    cases r with
    | nil => exact happ _ rfl hs
    | val v => exact happ _ rfl hs
    | cont u =>
      simp only [ActPC.step, Outcome.ok.injEq, Prod.mk.injEq] at hs
      obtain ⟨rfl, rfl⟩ := hs
      simp [ActPC.owes, ActPC.closing, Heap.waiter, Heap.recorded]
  | done s1 r =>
    simp only [ActPC.step] at hs
    cases hsen : h.sentries[s1]? with
    | none => simp [hsen] at hs
    | some sen =>
      simp only [hsen] at hs
      cases hd : WaitGroup.Done sen.waiter with
      | ok c =>
        obtain ⟨hc1, hc2⟩ := WaitGroup.Add_ok hd
        simp only [hd, Outcome.ok.injEq, Prod.mk.injEq] at hs
        obtain ⟨rfl, rfl⟩ := hs
        rw [Heap.waiter_set h s1 s sen _ _ hsen, Heap.recorded_set h s1 s sen _ _ hsen]
        by_cases hss : s1 = s
        · subst hss
          simp [ActPC.owes, ActPC.closing, Heap.waiter, Heap.recorded, hsen,
            UResult.toResult_owes]
          omega
        · simp [ActPC.owes, ActPC.closing, hss, UResult.toResult_owes]
      | panic => simp [hd] at hs
      | pending => simp [hd] at hs
  | ret r => simp [ActPC.step] at hs

theorem guardCalls_snoc (s : Nat) (hist : List (Obs U V)) (o : Obs U V) :
    guardCalls s (hist ++ [o]) = guardCalls s hist + Obs.isGuardCall s o := by
  simp [guardCalls, sumBy_append, sumBy_cons, sumBy_nil]

theorem GuardInv.of_eq {lost : Nat → Nat} {st st1 : Sys σ U V} {hist : List (Obs U V)}
    {o : Obs U V} (inv : GuardInv lost st hist) (ho : ∀ s, Obs.isGuardCall s o = 0)
    (hh : st1.heap = st.heap)
    (hod : ∀ s, st1.owed s = st.owed s) (hcl : ∀ s, st1.closing s = st.closing s) :
    GuardInv lost st1 (hist ++ [o]) := by
  obtain ⟨hC, hO⟩ := inv
  refine ⟨fun s => ?_, fun s => ?_⟩
  · have := hC s
    rw [guardCalls_snoc, ho, hh, hcl]
    simpa using this
  · have := hO s
    rw [hh, hod, hcl]
    exact this

theorem Result.owes_final (r : Result U V) (s : Nat) (h : r.isContinue = false) :
    r.owes s = 0 := by
  cases r <;> simp [Result.owes, Result.isContinue] at *

theorem Heap.waiter_append (h : Heap σ U V) (s : Nat) (x : σ) :
    Heap.waiter { user := x, sentries := h.sentries ++ [{ results := [], waiter := 0 }] } s
      = h.waiter s := by
  unfold Heap.waiter
  rcases Nat.lt_trichotomy s h.sentries.length with hlt | heq | hgt
  · simp [List.getElem?_append_left hlt]
  · subst heq
    simp
  · rw [List.getElem?_eq_none (by simp; omega), List.getElem?_eq_none (by omega)]

theorem Heap.recorded_append (h : Heap σ U V) (s : Nat) (x : σ) :
    Heap.recorded { user := x, sentries := h.sentries ++ [{ results := [], waiter := 0 }] } s
      = h.recorded s := by
  unfold Heap.recorded
  rcases Nat.lt_trichotomy s h.sentries.length with hlt | heq | hgt
  · simp [List.getElem?_append_left hlt]
  · subst heq
    simp
  · rw [List.getElem?_eq_none (by simp; omega), List.getElem?_eq_none (by omega)]

theorem guardInv_init (st0 : σ) : GuardInv (fun _ => 0) (New st0 : Sys σ U V) [] := by
  refine ⟨fun s => ?_, fun s => ?_⟩ <;>
    simp [New, Heap.waiter, Heap.recorded, guardCalls, Sys.closing, Sys.owed, CallerPC.owes,
      chanSum, sumBy]

theorem guardInv_step {lost : Nat → Nat} {st st1 : Sys σ U V} {hist : List (Obs U V)}
    {o : Obs U V} (inv : GuardInv lost st hist) (htr : Trans act st o st1) :
    GuardInv lost st1 (hist ++ [o]) := by
  cases htr with
  | spawnBusy num e hidle hb =>
    exact inv.of_eq (by intro s; rfl) rfl (by intro s; rfl) (by intro s; rfl)
  | waitErr e hidle hb =>
    exact inv.of_eq (by intro s; rfl) rfl (by intro s; rfl) (by intro s; rfl)
  | doDrop hidle hi =>
    exact inv.of_eq (by intro s; rfl) rfl (by intro s; rfl) (by intro s; rfl)
  | sentryNil hidle hb =>
    exact inv.of_eq (by intro s; rfl) rfl (by intro s; rfl) (by intro s; rfl)
  | spawnOk num hidle hi ho =>
    refine inv.of_eq (by intro s; rfl) rfl ?_ ?_
    · intro s
      simp [Sys.owed, chanSum_append_make, sumBy_append, sumBy_replicate, ExecPC.owes]
    · intro s
      simp [Sys.closing, sumBy_append, sumBy_replicate, ExecPC.closing]
  | waitEnter hidle hi ho hr =>
    refine inv.of_eq (by intro s; rfl) rfl ?_ (by intro s; rfl)
    intro s
    simp [Sys.owed, CallerPC.owes, hidle]
  | doEnter c m hidle hi =>
    refine inv.of_eq (by intro s; rfl) rfl ?_ (by intro s; rfl)
    intro s
    cases m <;> simp [Sys.owed, CallerPC.owes, hidle, owesJob, Job.owes]
  | sentryWaitEnter s1 hidle =>
    refine inv.of_eq (by intro s; rfl) rfl ?_ (by intro s; rfl)
    intro s
    simp [Sys.owed, CallerPC.owes, hidle]
  | sentryWaitRet s1 sen hc hs hz =>
    refine inv.of_eq (by intro s; rfl) rfl ?_ (by intro s; rfl)
    intro s
    simp [Sys.owed, CallerPC.owes, hc]
  | doSend c m chans hc hs =>
    refine inv.of_eq (by intro s; rfl) rfl ?_ (by intro s; rfl)
    intro s
    have := chanSum_sendOn (owesJob s) hs
    simp only [Sys.owed, CallerPC.owes, hc]
    omega
  | waitSend c i chans hc hlt hs =>
    refine inv.of_eq (by intro s; rfl) rfl ?_ (by intro s; rfl)
    intro s
    have := chanSum_sendOn (owesJob s) hs
    simp only [Sys.owed, CallerPC.owes, hc, owesJob, Job.owes] at *
    omega
  | waitSent c i hc hlt =>
    refine inv.of_eq (by intro s; rfl) rfl ?_ (by intro s; rfl)
    intro s
    simp [Sys.owed, CallerPC.owes, hc]
  | waitZero c hc hz =>
    refine inv.of_eq (by intro s; rfl) rfl ?_ (by intro s; rfl)
    intro s
    simp [Sys.owed, CallerPC.owes, hc]
  | waitCloseI chans hc hcl =>
    refine inv.of_eq (by intro s; rfl) rfl ?_ (by intro s; rfl)
    intro s
    have := chanSum_closeOn (owesJob s) hcl
    simp only [Sys.owed, CallerPC.owes, hc] at *
    omega
  | waitCloseO chans hc hcl =>
    refine inv.of_eq (by intro s; rfl) rfl ?_ (by intro s; rfl)
    intro s
    have := chanSum_closeOn (Result.owes s) hcl
    simp only [Sys.owed, CallerPC.owes, hc] at *
    omega
  | waitReset hc =>
    refine inv.of_eq (by intro s; rfl) rfl ?_ (by intro s; rfl)
    intro s
    simp [Sys.owed, CallerPC.owes, hc]
  | execStart k hk =>
    refine inv.of_eq (by intro s; rfl) rfl ?_ ?_
    · intro s
      have e1 := sumBy_set (ExecPC.owes s) st.execs k _ (ExecPC.recv st.w.i) hk
      simp only [Sys.owed, ExecPC.owes, ActPC.owes, owesJob] at *
      omega
    · intro s
      have e1 := sumBy_set (ExecPC.closing s) st.execs k _ (ExecPC.recv st.w.i) hk
      simp only [Sys.closing, ExecPC.closing, ActPC.closing] at *
      omega
  | execRecv k ci j chans hk hr =>
    refine inv.of_eq (by intro s; rfl) rfl ?_ ?_
    · intro s
      have e1 := sumBy_set (ExecPC.owes s) st.execs k _
        (ExecPC.run ci (ActPC.call j) (stopWaiter j)) hk
      have e2 := chanSum_recvOn (owesJob s) hr
      simp only [Sys.owed, ExecPC.owes, ActPC.owes, owesJob] at *
      omega
    · intro s
      have e1 := sumBy_set (ExecPC.closing s) st.execs k _
        (ExecPC.run ci (ActPC.call j) (stopWaiter j)) hk
      simp only [Sys.closing, ExecPC.closing, ActPC.closing] at *
      omega
  | execRecvNil k ci chans hk hr =>
    refine inv.of_eq (by intro s; rfl) rfl ?_ (by intro s; rfl)
    intro s
    have e2 := chanSum_recvOn (owesJob s) hr
    simp only [Sys.owed, owesJob] at *
    omega
  | execRecvClosed k ci chans hk hr =>
    refine inv.of_eq (by intro s; rfl) rfl ?_ ?_
    · intro s
      have e1 := sumBy_set (ExecPC.owes s) st.execs k _ (ExecPC.exited) hk
      have e2 := recvOn_closed hr
      subst e2
      simp only [Sys.owed, ExecPC.owes, ActPC.owes, owesJob] at *
      omega
    · intro s
      have e1 := sumBy_set (ExecPC.closing s) st.execs k _ (ExecPC.exited) hk
      simp only [Sys.closing, ExecPC.closing, ActPC.closing] at *
      omega
  | execRet k ci r sw hk =>
    refine inv.of_eq (by intro s; rfl) rfl ?_ ?_
    · intro s
      have e1 := sumBy_set (ExecPC.owes s) st.execs k _ (ExecPC.send ci st.w.o r sw) hk
      simp only [Sys.owed, ExecPC.owes, ActPC.owes, owesJob] at *
      omega
    · intro s
      have e1 := sumBy_set (ExecPC.closing s) st.execs k _ (ExecPC.send ci st.w.o r sw) hk
      simp only [Sys.closing, ExecPC.closing, ActPC.closing] at *
      omega
  | execSend k ci co r sw chans hk hs =>
    refine inv.of_eq (by intro s; rfl) rfl ?_ ?_
    · intro s
      have e1 := sumBy_set (ExecPC.owes s) st.execs k _ (ExecPC.spawn ci sw) hk
      have e2 := chanSum_sendOn (Result.owes s) hs
      simp only [Sys.owed, ExecPC.owes, ActPC.owes, owesJob] at *
      omega
    · intro s
      have e1 := sumBy_set (ExecPC.closing s) st.execs k _ (ExecPC.spawn ci sw) hk
      simp only [Sys.closing, ExecPC.closing, ActPC.closing] at *
      omega
  | chaseStart k wg hk =>
    refine inv.of_eq (by intro s; rfl) rfl ?_ ?_
    · intro s
      have e1 := sumBy_set (ChasePC.owes s) st.chasers k _ (ChasePC.recv st.w.o wg) hk
      simp only [Sys.owed, ChasePC.owes, ActPC.owes, owesJob] at *
      omega
    · intro s
      have e1 := sumBy_set (ChasePC.closing s) st.chasers k _ (ChasePC.recv st.w.o wg) hk
      simp only [Sys.closing, ChasePC.closing, ActPC.closing] at *
      omega
  | chaseRecv k co wg r chans hk hr =>
    refine inv.of_eq (by intro s; rfl) rfl ?_ ?_
    · intro s
      have e1 := sumBy_set (ChasePC.owes s) st.chasers k _ (ChasePC.chain r wg) hk
      have e2 := chanSum_recvOn (Result.owes s) hr
      simp only [Sys.owed, ChasePC.owes, ActPC.owes, owesJob] at *
      omega
    · intro s
      have e1 := sumBy_set (ChasePC.closing s) st.chasers k _ (ChasePC.chain r wg) hk
      simp only [Sys.closing, ChasePC.closing, ActPC.closing] at *
      omega
  | chaseRecvClosed k co wg chans hk hr =>
    refine inv.of_eq (by intro s; rfl) rfl ?_ ?_
    · intro s
      have e1 := sumBy_set (ChasePC.owes s) st.chasers k _ (ChasePC.chain Result.nil wg) hk
      have e2 := recvOn_closed hr
      subst e2
      simp only [Sys.owed, ChasePC.owes, ActPC.owes, owesJob, Result.owes] at *
      omega
    · intro s
      have e1 := sumBy_set (ChasePC.closing s) st.chasers k _ (ChasePC.chain Result.nil wg) hk
      simp only [Sys.closing, ChasePC.closing, ActPC.closing] at *
      omega
  | chaseCall k j wg hk =>
    refine inv.of_eq (by intro s; rfl) rfl ?_ ?_
    · intro s
      have e1 := sumBy_set (ChasePC.owes s) st.chasers k _ (ChasePC.act (ActPC.call j) wg) hk
      simp only [Sys.owed, ChasePC.owes, ActPC.owes, owesJob, Result.owes] at *
      omega
    · intro s
      have e1 := sumBy_set (ChasePC.closing s) st.chasers k _ (ChasePC.act (ActPC.call j) wg) hk
      simp only [Sys.closing, ChasePC.closing, ActPC.closing] at *
      omega
  | chaseFinal k r wg hk hf =>
    refine inv.of_eq (by intro s; rfl) rfl ?_ ?_
    · intro s
      have e1 := sumBy_set (ChasePC.owes s) st.chasers k _ (ChasePC.finish wg) hk
      have e2 := Result.owes_final r s hf
      simp only [Sys.owed, ChasePC.owes, ActPC.owes, owesJob] at *
      omega
    · intro s
      have e1 := sumBy_set (ChasePC.closing s) st.chasers k _ (ChasePC.finish wg) hk
      simp only [Sys.closing, ChasePC.closing, ActPC.closing] at *
      omega
  | chaseRet k r wg hk =>
    refine inv.of_eq (by intro s; rfl) rfl ?_ ?_
    · intro s
      have e1 := sumBy_set (ChasePC.owes s) st.chasers k _ (ChasePC.chain r wg) hk
      simp only [Sys.owed, ChasePC.owes, ActPC.owes, owesJob] at *
      omega
    · intro s
      have e1 := sumBy_set (ChasePC.closing s) st.chasers k _ (ChasePC.chain r wg) hk
      simp only [Sys.closing, ChasePC.closing, ActPC.closing] at *
      omega
  | chaseExit k hk =>
    refine inv.of_eq (by intro s; rfl) rfl ?_ ?_
    · intro s
      have e1 := sumBy_set (ChasePC.owes s) st.chasers k _ (ChasePC.exited) hk
      simp only [Sys.owed, ChasePC.owes, ActPC.owes, owesJob] at *
      omega
    · intro s
      have e1 := sumBy_set (ChasePC.closing s) st.chasers k _ (ChasePC.exited) hk
      simp only [Sys.closing, ChasePC.closing, ActPC.closing] at *
      omega
  | chaseDone k g c hk hg hc =>
    refine inv.of_eq (by intro s; rfl) rfl ?_ ?_
    · intro s
      have e1 := sumBy_set (ChasePC.owes s) st.chasers k _ (ChasePC.exited) hk
      simp only [Sys.owed, ChasePC.owes, ActPC.owes, owesJob] at *
      omega
    · intro s
      have e1 := sumBy_set (ChasePC.closing s) st.chasers k _ (ChasePC.exited) hk
      simp only [Sys.closing, ChasePC.closing, ActPC.closing] at *
      omega
  | sentryOk hidle hi ho =>
    obtain ⟨hC, hO⟩ := inv
    refine ⟨fun s => ?_, fun s => ?_⟩
    · have := hC s
      rw [guardCalls_snoc]
      simp only [Heap.waiter_append, Heap.recorded_append, Obs.isGuardCall, Sys.closing] at *
      simpa using this
    · have := hO s
      simp only [Heap.waiter_append, Sys.owed, Sys.closing] at *
      exact this
  | guardDrop s1 sen hidle hs hc hi =>
    obtain ⟨hC, hO⟩ := inv
    refine ⟨fun s => ?_, fun s => ?_⟩
    · have := hC s
      rw [guardCalls_snoc]
      simp only [Heap.waiter_set _ s1 s sen _ _ hs, Heap.recorded_set _ s1 s sen _ _ hs,
        Obs.isGuardCall, Sys.closing] at *
      by_cases hss : s1 = s
      · subst hss
        simp only [if_true, Heap.waiter, Heap.recorded, hs] at *
        push_cast at *
        omega
      · simp only [hss, if_false] at *
        simpa using this
    · have := hO s
      simp only [Heap.waiter_set _ s1 s sen _ _ hs, Sys.owed, Sys.closing] at *
      by_cases hss : s1 = s
      · subst hss
        simp only [if_true, Heap.waiter, hs] at *
        omega
      · simp only [hss, if_false] at *
        exact this
  | guardEnter s1 sen m c hidle hs hc hi =>
    obtain ⟨hC, hO⟩ := inv
    refine ⟨fun s => ?_, fun s => ?_⟩
    · have := hC s
      rw [guardCalls_snoc]
      simp only [Heap.waiter_set _ s1 s sen _ _ hs, Heap.recorded_set _ s1 s sen _ _ hs,
        Obs.isGuardCall, Sys.closing] at *
      by_cases hss : s1 = s
      · subst hss
        simp only [if_true, Heap.waiter, Heap.recorded, hs] at *
        push_cast at *
        omega
      · simp only [hss, if_false] at *
        simpa using this
    · have := hO s
      simp only [Heap.waiter_set _ s1 s sen _ _ hs, Sys.owed, Sys.closing, CallerPC.owes,
        hidle, owesJob, Job.owes] at *
      by_cases hss : s1 = s
      · subst hss
        simp only [if_true, Heap.waiter, hs] at *
        push_cast at *
        omega
      · simp only [hss, if_false] at *
        simpa using this
  | execAct k ci a a1 sw h1 hk hs =>
    obtain ⟨hC, hO⟩ := inv
    refine ⟨fun s => ?_, fun s => ?_⟩
    · have := hC s
      obtain ⟨c1, c2⟩ := ActPC.step_count act hs s
      have e1 := sumBy_set (ExecPC.closing s) st.execs k _ (ExecPC.run ci a1 sw) hk
      rw [guardCalls_snoc]
      simp only [Obs.isGuardCall, Sys.closing, ExecPC.closing] at *
      push_cast at *
      omega
    · have := hO s
      obtain ⟨c1, c2⟩ := ActPC.step_count act hs s
      have e1 := sumBy_set (ExecPC.closing s) st.execs k _ (ExecPC.run ci a1 sw) hk
      have e2 := sumBy_set (ExecPC.owes s) st.execs k _ (ExecPC.run ci a1 sw) hk
      simp only [Sys.owed, Sys.closing, ExecPC.closing, ExecPC.owes] at *
      push_cast at *
      omega
  | chaseAct k a a1 wg h1 hk hs =>
    obtain ⟨hC, hO⟩ := inv
    refine ⟨fun s => ?_, fun s => ?_⟩
    · have := hC s
      obtain ⟨c1, c2⟩ := ActPC.step_count act hs s
      have e1 := sumBy_set (ChasePC.closing s) st.chasers k _ (ChasePC.act a1 wg) hk
      rw [guardCalls_snoc]
      simp only [Obs.isGuardCall, Sys.closing, ChasePC.closing] at *
      push_cast at *
      omega
    · have := hO s
      obtain ⟨c1, c2⟩ := ActPC.step_count act hs s
      have e1 := sumBy_set (ChasePC.closing s) st.chasers k _ (ChasePC.act a1 wg) hk
      have e2 := sumBy_set (ChasePC.owes s) st.chasers k _ (ChasePC.act a1 wg) hk
      simp only [Sys.owed, Sys.closing, ChasePC.closing, ChasePC.owes] at *
      push_cast at *
      omega
  | execSpawn k ci sw hk =>
    refine inv.of_eq (by intro s; rfl) rfl ?_ ?_
    · intro s
      have e1 := sumBy_set (ExecPC.owes s) st.execs k _
        (if sw.isSome then ExecPC.exited else ExecPC.recv ci) hk
      cases sw <;>
        simp only [Sys.owed, ExecPC.owes, sumBy_append, sumBy_cons, sumBy_nil, ChasePC.owes,
          Option.isSome_none, Option.isSome_some, Bool.false_eq_true, if_true, if_false] at * <;>
        omega
    · intro s
      have e1 := sumBy_set (ExecPC.closing s) st.execs k _
        (if sw.isSome then ExecPC.exited else ExecPC.recv ci) hk
      cases sw <;>
        simp only [Sys.closing, ExecPC.closing, sumBy_append, sumBy_cons, sumBy_nil,
          ChasePC.closing, Option.isSome_none, Option.isSome_some, Bool.false_eq_true, if_true,
          if_false] at * <;>
        omega

end GuardInvariant

/-! ## The bound on the buffers, and reachable states -/

section Bound
variable {α : Type}

theorem bounded_set {chans : List (Chan α)} (hb : ∀ ch ∈ chans, ch.buf.length ≤ Chan.cap)
    (id : Nat) (ch1 : Chan α) (h1 : ch1.buf.length ≤ Chan.cap) :
    ∀ ch ∈ chans.set id ch1, ch.buf.length ≤ Chan.cap := by
  intro ch hch
  rcases List.mem_or_eq_of_mem_set hch with h | h
  · exact hb ch h
  · subst h; exact h1

theorem sendOn_bounded {chans chans1 : List (Chan α)} {c : Option Nat} {x : α}
    (hb : ∀ ch ∈ chans, ch.buf.length ≤ Chan.cap) (h : sendOn chans c x = .ok chans1) :
    ∀ ch ∈ chans1, ch.buf.length ≤ Chan.cap := by
  unfold sendOn at h
  split at h
  · cases h
  · rename_i id
    split at h
    · cases h
    · rename_i ch hch
      split at h
      · rename_i ch1 hs
        cases h
        unfold Chan.send at hs
        split at hs
        · cases hs
        · split at hs
          · rename_i hlen
            cases hs
            refine bounded_set hb id _ ?_
            simp only [List.length_append, List.length_singleton]
            omega
          · cases hs
      · cases h
      · cases h

theorem recvOn_bounded {chans chans1 : List (Chan α)} {c : Option Nat} {x : Option α}
    (hb : ∀ ch ∈ chans, ch.buf.length ≤ Chan.cap) (h : recvOn chans c = .ok (x, chans1)) :
    ∀ ch ∈ chans1, ch.buf.length ≤ Chan.cap := by
  unfold recvOn at h
  split at h
  · cases h
  · rename_i id
    split at h
    · cases h
    · rename_i ch hch
      have hch1 := hb ch (List.getElem?_mem hch)
      split at h
      · rename_i y ch1 hs
        cases h
        unfold Chan.recv at hs
        split at hs
        · rename_i z rest hbuf
          cases hs
          refine bounded_set hb id _ ?_
          rw [hbuf] at hch1
          simp only [List.length_cons] at hch1
          simp only
          omega
        · split at hs
          · cases hs
            exact bounded_set hb id _ hch1
          · cases hs
      · cases h
      · cases h

theorem closeOn_bounded {chans chans1 : List (Chan α)} {c : Option Nat}
    (hb : ∀ ch ∈ chans, ch.buf.length ≤ Chan.cap) (h : closeOn chans c = .ok chans1) :
    ∀ ch ∈ chans1, ch.buf.length ≤ Chan.cap := by
  unfold closeOn at h
  split at h
  · cases h
  · rename_i id
    split at h
    · cases h
    · rename_i ch hch
      have hch1 := hb ch (List.getElem?_mem hch)
      split at h
      · rename_i ch1 hs
        cases h
        unfold Chan.close at hs
        split at hs
        · cases hs
        · cases hs
          exact bounded_set hb id _ hch1
      · cases h

theorem append_make_bounded {chans : List (Chan α)}
    (hb : ∀ ch ∈ chans, ch.buf.length ≤ Chan.cap) :
    ∀ ch ∈ chans ++ [Chan.make], ch.buf.length ≤ Chan.cap := by
  intro ch hch
  rcases List.mem_append.mp hch with h | h
  · exact hb ch h
  · simp only [List.mem_singleton] at h
    subst h
    simp [Chan.make]

theorem Chan.send_ok_iff (c : Chan α) (x : α) :
    (∃ c1, c.send x = .ok c1) ↔ (c.closed = false ∧ c.buf = []) := by
  unfold Chan.send Chan.cap
  constructor
  · rintro ⟨c1, h⟩
    split at h
    · cases h
    · split at h
      · rename_i h1 h2
        exact ⟨by simpa using h1, List.length_eq_zero.mp (by omega)⟩
      · cases h
  · rintro ⟨h1, h2⟩
    simp [h1, h2]

end Bound

section ReachInv

variable {σ U V : Type} (act : U → σ → UResult U V × σ)

theorem bounded_step {st st1 : Sys σ U V} {o : Obs U V}
    (hb : (∀ ch ∈ st.ichans, ch.buf.length ≤ Chan.cap) ∧
      (∀ ch ∈ st.ochans, ch.buf.length ≤ Chan.cap))
    (htr : Trans act st o st1) :
    (∀ ch ∈ st1.ichans, ch.buf.length ≤ Chan.cap) ∧
      (∀ ch ∈ st1.ochans, ch.buf.length ≤ Chan.cap) := by
  obtain ⟨hi, ho⟩ := hb
  cases htr with
  | spawnOk num hidle h1 h2 => exact ⟨append_make_bounded hi, append_make_bounded ho⟩
  | doSend c m chans hc hs => exact ⟨sendOn_bounded hi hs, ho⟩
  | waitSend c i chans hc hlt hs => exact ⟨sendOn_bounded hi hs, ho⟩
  | waitCloseI chans hc hcl => exact ⟨closeOn_bounded hi hcl, ho⟩
  | waitCloseO chans hc hcl => exact ⟨hi, closeOn_bounded ho hcl⟩
  | execRecv k ci j chans hk hr => exact ⟨recvOn_bounded hi hr, ho⟩
  | execRecvNil k ci chans hk hr => exact ⟨recvOn_bounded hi hr, ho⟩
  | execRecvClosed k ci chans hk hr => exact ⟨recvOn_bounded hi hr, ho⟩
  | execSend k ci co r sw chans hk hs => exact ⟨hi, sendOn_bounded ho hs⟩
  | chaseRecv k co wg r chans hk hr => exact ⟨hi, recvOn_bounded ho hr⟩
  | chaseRecvClosed k co wg chans hk hr => exact ⟨hi, recvOn_bounded ho hr⟩
  | _ => exact ⟨hi, ho⟩

theorem reach_inv {st : Sys σ U V} {hist : List (Obs U V)} (h : Reach act st hist) :
    ShutdownInv st ∧ GuardInv (fun _ => 0) st hist ∧
      (∀ ch ∈ st.ichans, ch.buf.length ≤ Chan.cap) ∧
      (∀ ch ∈ st.ochans, ch.buf.length ≤ Chan.cap) := by
  induction h with
  | init st0 => exact ⟨shutdownInv_init st0, guardInv_init st0, by simp [New], by simp [New]⟩
  | next hr hstep ih =>
    have htr := step_trans act hstep
    obtain ⟨i1, i2, i3, i4⟩ := ih
    have hb := bounded_step act ⟨i3, i4⟩ htr
    exact ⟨shutdownInv_step act i1 htr, guardInv_step act i2 htr, hb.1, hb.2⟩

theorem run_reach {st st1 : Sys σ U V} {hist os : List (Obs U V)} (ls : List (Label U))
    (h : Reach act st hist) (hrun : run act st ls = .ok (st1, os)) :
    Reach act st1 (hist ++ os) := by
  induction ls generalizing st hist os with
  | nil =>
    simp only [run, Outcome.ok.injEq, Prod.mk.injEq] at hrun
    obtain ⟨rfl, rfl⟩ := hrun
    simpa using h
  | cons l ls ih =>
    simp only [run] at hrun
    cases hs : step act st l with
    | ok p =>
      obtain ⟨st2, o⟩ := p
      simp only [hs] at hrun
      cases hr2 : run act st2 ls with
      | ok q =>
        obtain ⟨st3, os2⟩ := q
        simp only [hr2, Outcome.ok.injEq, Prod.mk.injEq] at hrun
        obtain ⟨rfl, rfl⟩ := hrun
        have := ih (Reach.next h hs) hr2
        simpa using this
      | panic => simp [hr2] at hrun
      | pending => simp [hr2] at hrun
    | panic => simp [hs] at hrun
    | pending => simp [hs] at hrun

end ReachInv

/-! ## A run of Spawn followed by Wait -/

section RoundTrip

variable {σ U V : Type} (act : U → σ → UResult U V × σ)

theorem run_cons_ok {st st1 st2 : Sys σ U V} {l : Label U} {ls : List (Label U)} {o : Obs U V}
    {os : List (Obs U V)} (h1 : step act st l = .ok (st1, o))
    (h2 : run act st1 ls = .ok (st2, os)) : run act st (l :: ls) = .ok (st2, o :: os) := by
  simp [run, h1, h2]

end RoundTrip

/-! ## Consequences of the invariants -/

section Consequences

variable {σ U V : Type} (act : U → σ → UResult U V × σ)

end Consequences

/-! ## Facts about channels and sums -/

section ChanFacts
variable {α : Type}

end ChanFacts

section PairFacts

variable {σ U V : Type}

end PairFacts

/-! ## The pairing invariant is kept by every step -/

section PairStep

variable {σ U V : Type} (act : U → σ → UResult U V × σ)

end PairStep

section PairStep2

variable {σ U V : Type} (act : U → σ → UResult U V × σ)

end PairStep2

/-! ## The round of a Wait that follows SpawnN at once: every schedule -/

section RoundFacts

variable {σ U V : Type} (act : U → σ → UResult U V × σ)

end RoundFacts

section RoundStep

variable {σ U V : Type} (act : U → σ → UResult U V × σ)

end RoundStep

section RoundProgress

variable {σ U V : Type} (act : U → σ → UResult U V × σ)

end RoundProgress

section RoundRun

variable {σ U V : Type} (act : U → σ → UResult U V × σ)

end RoundRun

section RoundSafe

variable {σ U V : Type} (act : U → σ → UResult U V × σ)

end RoundSafe

/-! ## The claims on the concurrent layer -/

section Claims2

variable {σ U V : Type} (act : U → σ → UResult U V × σ)

theorem demoBusyRun_run :
    run demoAct (New 0) demoBusyRun = .ok (demoBusy, .spawnN 1 none :: List.replicate 5 .tau) := by
  decide

theorem demoGuardRun_run :
    run demoAct (New 0) demoGuardRun
      = .ok (demoGuarded,
          [.spawnN 2 none, .sentryNew (some 0), .guardCall 0, .tau, .tau, .tau, .guardCall 0]
            ++ List.replicate 10 .tau) := by
  decide

theorem demoMidRun_run :
    run demoAct (New 0) demoMidRun
      = .ok (demoMid, [.spawnN 2 none, .tau] ++ List.replicate 11 .tau) := by
  decide

/-- C10, as amended.  The two queues are buffered channels of capacity one,
not rendezvous points: a send completes exactly when the channel is open and
its buffer is empty, whether or not a receiver is ready, and blocks while the
buffer holds an item.  In every state reachable from a fresh worker each
queue buffers at most one item, and a Do that stands at its send completes
exactly when the inbound queue is open and empty. -/
theorem queues_buffer_one {st : Sys σ U V} {hist : List (Obs U V)} (h : Reach act st hist) :
    (∀ ch ∈ st.ichans, ch.buf.length ≤ 1) ∧
    (∀ ch ∈ st.ochans, ch.buf.length ≤ 1) ∧
    (∀ (ch : Chan (Option (Job U V))) (m : Option (Job U V)),
      (∃ ch1, ch.send m = .ok ch1) ↔ (ch.closed = false ∧ ch.buf = [])) ∧
    (∀ (ch : Chan (Result U V)) (r : Result U V),
      (∃ ch1, ch.send r = .ok ch1) ↔ (ch.closed = false ∧ ch.buf = [])) ∧
    (∀ c m ch, st.caller = .doSend c m → st.ichans[c]? = some ch →
      ((∃ st1 o, callerStep st = .ok (st1, o)) ↔ (ch.closed = false ∧ ch.buf = []))) := by
  obtain ⟨_, _, hb1, hb2⟩ := reach_inv act h
  refine ⟨hb1, hb2, fun ch m => Chan.send_ok_iff ch m, fun ch r => Chan.send_ok_iff ch r, ?_⟩
  intro c m ch hc hch
  rw [← Chan.send_ok_iff ch m]
  unfold callerStep
  rw [hc]
  simp only [sendOn, hch]
  constructor
  · rintro ⟨st1, o, hstep⟩
    cases hsend : ch.send m with
    | ok ch1 => exact ⟨ch1, rfl⟩
    | panic => simp [hsend] at hstep
    | pending => simp [hsend] at hstep
  · rintro ⟨ch1, hsend⟩
    simp [hsend]

end Claims2

/-! ## Worked examples -/

section Witnesses

theorem lifecycle_misuse_atomic_witness :
    (demoRunning.w.i.isSome = true ∨ demoRunning.w.o.isSome = true) ∧
    ((New 0 : Sys Nat Nat Nat).w.i = none ∨ (New 0 : Sys Nat Nat Nat).w.o = none) ∧
    (Worker.SpawnN 3 demoRunning).2 = demoRunning ∧
    Worker.Wait (New 0 : Sys Nat Nat Nat) = .ok (some .workerFree, New 0) :=
  ⟨Or.inl rfl, Or.inl rfl,
    ((lifecycle_misuse_atomic demoAct demoRunning 3).1 (Or.inl rfl)).2.1,
    ((lifecycle_misuse_atomic demoAct (New 0) 3).2 (Or.inl rfl)).2.2.1 rfl⟩

theorem spawn_twice_witness :
    (Worker.SpawnN 2 (Worker.SpawnN 4 (New 0 : Sys Nat Nat Nat)).2).1 = some .busyOnJobs ∨
      (Worker.SpawnN 2 (Worker.SpawnN 4 (New 0 : Sys Nat Nat Nat)).2).1
        = some .busyOnJobResults :=
  (spawn_twice (New 0 : Sys Nat Nat Nat) 4 2).1

theorem submit_fire_and_forget_witness :
    (New 0 : Sys Nat Nat Nat).w.i = none ∧
    Worker.Do (some (.user 1)) (New 0 : Sys Nat Nat Nat) = New 0 ∧
    demoBusy.caller = .doSend 0 (some (.user 1)) ∧
    callerStep demoBusy = .ok (demoBuffered, .tau) ∧
    (∃ ch, demoBusy.ichans[0]? = some ch ∧ ch.buf = [] ∧ ch.closed = false ∧
      (Obs.tau : Obs Nat Nat) = .tau ∧
      demoBuffered = { demoBusy with
        ichans := demoBusy.ichans.set 0 { ch with buf := [some (.user 1)] }, caller := .idle }) :=
  ⟨rfl, (submit_fire_and_forget demoAct (New 0) (some (.user 1))).1 rfl, rfl, by decide,
    (submit_fire_and_forget demoAct demoBusy (some (.user 1))).2.2.2 0 demoBuffered .tau rfl
      (by decide)⟩

theorem pool_lifecycle_invariant_witness :
    Reach demoAct demoMid ([] ++ ([.spawnN 2 none, .tau] ++ List.replicate 11 .tau)) ∧
    (demoMid.w.i.isSome = demoMid.w.o.isSome) ∧
    demoMid.w.i.isSome
      = running ([] ++ ([.spawnN 2 none, .tau] ++ List.replicate 11 (.tau : Obs Nat Nat))) :=
  ⟨run_reach demoAct demoMidRun (Reach.init 0) demoMidRun_run,
    pool_lifecycle_invariant demoAct
      (run_reach demoAct demoMidRun (Reach.init 0) demoMidRun_run)⟩

theorem queues_buffer_one_witness :
    Reach demoAct demoGuarded
      ([] ++ ([.spawnN 2 none, .sentryNew (some 0), .guardCall 0, .tau, .tau, .tau,
        .guardCall 0] ++ List.replicate 10 .tau)) ∧
    (∀ ch ∈ demoGuarded.ichans, ch.buf.length ≤ 1) :=
  ⟨run_reach demoAct demoGuardRun (Reach.init 0) demoGuardRun_run,
    (queues_buffer_one demoAct
      (run_reach demoAct demoGuardRun (Reach.init 0) demoGuardRun_run)).1⟩

/-- C10, the claim as stated fails.  At the end of demoBusyRun the only
executor of the pool is inside the call of Action of job 0, so no executor is
ready to dequeue; the caller stands at the send of Do on job 1; and that send
completes: Do returns and job 1 sits in the buffer of the inbound queue. -/
theorem submit_completes_while_executor_busy :
    run demoAct (New 0) demoBusyRun = .ok (demoBusy, .spawnN 1 none :: List.replicate 5 .tau) ∧
    demoBusy.execs = [.run (some 0) (.call (.user 0)) none] ∧
    demoBusy.caller = .doSend 0 (some (.user 1)) ∧
    step demoAct demoBusy .caller = .ok (demoBuffered, .tau) ∧
    demoBuffered.caller = .idle ∧
    demoBuffered.ichans = [{ buf := [some (.user 1)], closed := false }] ∧
    demoBuffered.execs = [.run (some 0) (.call (.user 0)) none] := by
  refine ⟨demoBusyRun_run, rfl, rfl, by decide, rfl, rfl, rfl⟩

end Witnesses

end worker
